import Mathlib

/-!
Shallow embedding of `src/main.py`: a 9×9 Sudoku solver with a SAT
reduction path (`solve_as_sat`) and a backtracking CSP path
(`solve_as_csp`).  Python lists of lists of ints become `List (List Int)`,
the two registry dicts become insertion-ordered association lists, the
instance attributes become an explicit `SudokuState`, and the external
SAT oracle's answer is passed in as a parameter constrained by
satisfaction hypotheses in the theorems.
-/

namespace SudokuPy

/-- `GRID_LEN = 9` (class constant). -/
def GRID_LEN : Nat := 9

/-- `SUBGRID_LEN = 3` (class constant). -/
def SUBGRID_LEN : Nat := 3

/-- `MAX_NUMBER = 9` (class constant). -/
def MAX_NUMBER : Nat := 9

/-- A grid mirrors the Python list-of-lists of ints; `0` is a blank cell. -/
abbrev Grid := List (List Int)

/-- Reading `grid[row][col]`.  Out-of-range access defaults to `0`; every
theorem that relies on cell values carries a 9×9 shape hypothesis under
which the default is never used. -/
def gcell (g : Grid) (row col : Nat) : Int := (g.getD row []).getD col 0

/-- The in-place cell write `grid[row][col] = n` as a functional update. -/
def setCell (g : Grid) (row col : Nat) (n : Int) : Grid :=
  g.set row ((g.getD row []).set col n)

/-- The dimension check of `Sudoku.__init__`: exactly 9 rows, each row of
exactly 9 entries.  No value-range check is performed by the source. -/
def dims9 (g : Grid) : Bool :=
  (g.length == GRID_LEN) && g.all (fun row => row.length == GRID_LEN)

/-- A triple `(row, col, number)` as fed to `Sudoku.__atom`; rows and
columns come from `range` loops (naturals), the number is a grid entry or
a loop digit (a Python int). -/
abbrev Triple := Nat × Nat × Int

/-- The two memoisation dicts `__atom_id : triple -> id` and
`__id_atom : id -> triple`, modelled as insertion-ordered association
lists (Python dicts preserve insertion order). -/
structure AtomReg where
  atom_id : List (Triple × Nat)
  id_atom : List (Nat × Triple)
deriving DecidableEq, Repr

/-- Python dict lookup `d[k]`/`k in d.keys()` on an association list. -/
def dictLookup {κ β : Type} [DecidableEq κ] (l : List (κ × β)) (k : κ) : Option β :=
  (l.find? (fun p => decide (p.1 = k))).map (·.2)

/-- `Sudoku.__atom`: memoised allocation of atom identifiers.  A known
triple returns its stored id; a fresh triple is assigned
`len(self.__atom_id) + 1` and recorded in both dicts. -/
def atom (s : AtomReg) (t : Triple) : Nat × AtomReg :=
  match dictLookup s.atom_id t with
  | some i => (i, s)
  | none =>
      let i := s.atom_id.length + 1
      (i, ⟨s.atom_id ++ [(t, i)], s.id_atom ++ [(i, t)]⟩)

/-- `Sudoku.__literal`: the signed integer `±atom_id`, negative when the
`negation` flag is set. -/
def literal (s : AtomReg) (t : Triple) (negation : Bool) : Int × AtomReg :=
  let (i, s') := atom s t
  ((if negation then -(i : Int) else (i : Int)), s')

/-- The mutable instance attributes of a `Sudoku` object (the timer
fields are out of scope per the spec). -/
structure SudokuState where
  grid : Grid
  reg : AtomReg
  solution : Option Grid
  solution_found : Bool
deriving Repr

/-- `Sudoku.__init__`: raise `ValueError('Wrong grid size')` (the spec's
`InvalidDimensions`) unless the grid has 9 rows of 9 entries each;
otherwise store the grid and create empty registries, no solution. -/
def sudokuInit (g : Grid) : Except String SudokuState :=
  if g.length ≠ GRID_LEN then .error "Wrong grid size"
  else if g.any (fun row => row.length ≠ GRID_LEN) then .error "Wrong grid size"
  else .ok ⟨g, ⟨[], []⟩, none, false⟩

/-- `range(1, MAX_NUMBER + 1)`: the digit loop `[1, ..., 9]` (as Python
ints, i.e. the `Int` component of a triple). -/
def digits : List Int := (List.range 9).map (fun k : Nat => (k : Int) + 1)

/-- The row-major cell enumeration produced by the nested
`for row in range(9): for col in range(9)` loops. -/
def cells : List (Nat × Nat) :=
  (List.range 9).flatMap (fun r => (List.range 9).map (fun c => (r, c)))

/-- One unit check of `__check_constraints`: the count of non-zero
entries must equal the size of their set (`numbers_count != len(numbers)`
guards the early `return False`). -/
def unitOk (l : List Int) : Bool :=
  let nz := l.filter (fun e => e ≠ 0)
  nz.length == nz.dedup.length

/-- The rows loop of `__check_constraints` (lines 135–144). -/
def checkRows (g : Grid) : Bool := g.all unitOk

/-- A column as read by the columns loop: `row[col]` for each row. -/
def colList (g : Grid) (col : Nat) : List Int := g.map (fun row => row.getD col 0)

/-- The columns loop of `__check_constraints` (lines 146–155). -/
def checkCols (g : Grid) : Bool :=
  (List.range GRID_LEN).all (fun col => unitOk (colList g col))

/-- A 3×3 sub-grid as read by the sub-grid loop: `grid[row][col]` for
`row in range(rowS, rowS+3)`, `col in range(colS, colS+3)`. -/
def boxList (g : Grid) (rowS colS : Nat) : List Int :=
  (List.range' rowS SUBGRID_LEN).flatMap (fun r =>
    (List.range' colS SUBGRID_LEN).map (fun c => gcell g r c))

/-- The sub-grid loop of `__check_constraints` (lines 157–168); `rowS`
and `colS` range over `0, 3, 6`. -/
def checkBoxes (g : Grid) : Bool :=
  (List.range SUBGRID_LEN).all (fun bi =>
    (List.range SUBGRID_LEN).all (fun bj =>
      unitOk (boxList g (SUBGRID_LEN * bi) (SUBGRID_LEN * bj))))

/-- `Sudoku.__check_constraints` (early `return False` folded into the
conjunction of the three loops, in source order). -/
def check_constraints (g : Grid) : Bool := checkRows g && checkCols g && checkBoxes g

/-- A clause template: the triples and negation flags a source loop
iteration passes to `__literal` for one `solver.add_clause` call. -/
abbrev QLit := Triple × Bool

/-- A CNF clause as handed to the oracle: signed atom identifiers. -/
abbrev Clause := List Int

/-- Lines 75–78, "constraints given by the initial state": for every
cell in row-major order, the unit clause
`[self.__literal(row, col, self.__grid[row][col])]` — emitted for every
cell, whether or not the entry is `0`. -/
def givensPlan (g : Grid) : List (List QLit) :=
  cells.map (fun rc => [((rc.1, rc.2, gcell g rc.1 rc.2), false)])

/-- Lines 80–86, "there is at least one number in each cell". -/
def coveragePlan : List (List QLit) :=
  cells.map (fun rc => digits.map (fun d => ((rc.1, rc.2, d), false)))

/-- Lines 88–94, "all numbers in each row are different". -/
def rowPlan : List (List QLit) :=
  (List.range 9).flatMap (fun row =>
    (List.range 9).flatMap (fun colA =>
      (List.range' (colA + 1) (8 - colA)).flatMap (fun colB =>
        digits.map (fun d => [((row, colA, d), true), ((row, colB, d), true)]))))

/-- Lines 96–102, "all numbers in each column are different". -/
def colPlan : List (List QLit) :=
  (List.range 9).flatMap (fun col =>
    (List.range 9).flatMap (fun rowA =>
      (List.range' (rowA + 1) (8 - rowA)).flatMap (fun rowB =>
        digits.map (fun d => [((rowA, col, d), true), ((rowB, col, d), true)]))))

/-- Lines 104–114, "all numbers in each sub-grid are different", with the
`if rowB > rowA or (rowB == rowA and colB > colA)` guard. -/
def boxPlan : List (List QLit) :=
  (List.range 3).flatMap (fun bi =>
    (List.range 3).flatMap (fun bj =>
      (List.range' (3 * bi) 3).flatMap (fun rowA =>
        (List.range' (3 * bj) 3).flatMap (fun colA =>
          (List.range' (3 * bi) 3).flatMap (fun rowB =>
            (List.range' (3 * bj) 3).flatMap (fun colB =>
              if rowA < rowB ∨ (rowB = rowA ∧ colA < colB) then
                digits.map (fun d =>
                  [((rowA, colA, d), true), ((rowB, colB, d), true)])
              else []))))))

/-- The full clause-emission order of `solve_as_sat` (lines 75–114). -/
def satPlan (g : Grid) : List (List QLit) :=
  givensPlan g ++ coveragePlan ++ rowPlan ++ colPlan ++ boxPlan

/-- Emit one clause: successive `__literal` calls thread the registry and
the signed integers form the list passed to `solver.add_clause`. -/
def runClause (cl : List QLit) (s : AtomReg) : Clause × AtomReg :=
  match cl with
  | [] => ([], s)
  | q :: rest =>
      let (l, s') := literal s q.1 q.2
      let (ls, s'') := runClause rest s'
      (l :: ls, s'')

/-- Emit a list of clauses in order, threading the registry. -/
def runPlan (p : List (List QLit)) (s : AtomReg) : List Clause × AtomReg :=
  match p with
  | [] => ([], s)
  | cl :: rest =>
      let (c, s') := runClause cl s
      let (cs, s'') := runPlan rest s'
      (c :: cs, s'')

/-- The clause list handed to the oracle and the registry after the
encoding phase of `solve_as_sat`, starting from the instance's current
registry (which `solve_as_sat` does *not* reset). -/
def satEncode (s : AtomReg) (g : Grid) : List Clause × AtomReg := runPlan (satPlan g) s

/-- Lines 119–125: start from `copy.deepcopy(self.__grid)` and, for every
positive value of the model, write the digit of that atom's triple into
the copy.  (A positive model value absent from `__id_atom` would raise
`KeyError` in Python; the `none` branch is dead under the theorems'
hypotheses, which make the model range over the registered atoms.) -/
def decodeModel (s : AtomReg) (model : List Int) (g : Grid) : Grid :=
  model.foldl (fun sol (v : Int) =>
    if 0 < v then
      match dictLookup s.id_atom v.natAbs with
      | some (r, c, n) => setCell sol r c n
      | none => sol
    else sol) g

/-- `solve_as_sat` (lines 60–130) with the external Glucose3 call
abstracted into the `oracle` parameter: `none` for UNSAT, `some model`
for SAT.  The formula the oracle answers about is
`(satEncode st.reg st.grid).1`. -/
def solveAsSat (st : SudokuState) (oracle : Option (List Int)) : Option Grid × SudokuState :=
  match oracle with
  | none =>
      (none, { st with reg := (satEncode st.reg st.grid).2,
                       solution := none, solution_found := false })
  | some m =>
      (some (decodeModel (satEncode st.reg st.grid).2 m st.grid),
       { st with reg := (satEncode st.reg st.grid).2,
                 solution := some (decodeModel (satEncode st.reg st.grid).2 m st.grid),
                 solution_found := true })

/-- `Sudoku.__csp_search` (lines 172–197), with the attribute pair
`(__solution_found, __solution)` threaded as an `Option Grid`
accumulator (`some` exactly when the flag is set) and a structural fuel
argument bounding the recursion depth; `solve_as_csp` supplies fuel 82,
which covers the longest possible cursor chain (see `cspSearch_spec`). -/
def cspSearchF (given : Grid) : Nat → Grid → Nat → Nat → Option Grid → Option Grid
  | 0, _, _, _, acc => acc
  | fuel + 1, grid, row, col, acc =>
    if acc.isSome then acc
    else if ¬ check_constraints grid then acc
    else if row = GRID_LEN then some grid
    else if gcell given row col ≠ 0 then
      (if col = GRID_LEN - 1 then cspSearchF given fuel grid (row + 1) 0 acc
       else cspSearchF given fuel grid row (col + 1) acc)
    else
      digits.foldl (fun a d =>
        let candidate := setCell grid row col d
        if col = GRID_LEN - 1 then cspSearchF given fuel candidate (row + 1) 0 a
        else cspSearchF given fuel candidate row (col + 1) a) acc

/-- `solve_as_csp` (lines 199–211): reset the solution attributes, run
the search from `(self.__grid, 0, 0)`, return `self.__solution`. -/
def solveAsCsp (st : SudokuState) : Option Grid × SudokuState :=
  let sol := cspSearchF st.grid 82 st.grid 0 0 none
  (sol, { st with solution := sol, solution_found := sol.isSome })

/-! ### Verification-layer definitions -/

/-- Position of the first occurrence of `t` in `l` (`l.length` when absent). -/
def posOf {α : Type} [DecidableEq α] (l : List α) (t : α) : Nat :=
  match l with
  | [] => 0
  | x :: xs => if x = t then 0 else posOf xs t + 1

/-- Entries of the canonical registry for key list `ts`, with identifiers
starting at `n + 1`. -/
def regOfAux (ts : List Triple) (n : Nat) : List (Triple × Nat) × List (Nat × Triple) :=
  match ts with
  | [] => ([], [])
  | t :: rest =>
      let p := regOfAux rest (n + 1)
      ((t, n + 1) :: p.1, (n + 1, t) :: p.2)

/-- The registry state after the (pairwise distinct) triples `ts` have
been registered in this order, starting from the empty registry created
by `__init__`. -/
def regOf (ts : List Triple) : AtomReg := ⟨(regOfAux ts 0).1, (regOfAux ts 0).2⟩

/-- The identifier a registry with key list `K` associates to `t`. -/
def idOf (K : List Triple) (t : Triple) : Nat := posOf K t + 1

/-- Key list after running the queries `qs` against a registry with key
list `ts`: first occurrences of fresh triples are appended in order. -/
def keysAfter (ts qs : List Triple) : List Triple :=
  match qs with
  | [] => ts
  | q :: rest => keysAfter (if q ∈ ts then ts else ts ++ [q]) rest

/-- All atom queries of a clause template list, in evaluation order. -/
def planQueries (p : List (List QLit)) : List Triple :=
  p.flatMap (fun cl => cl.map (·.1))

/-- The literal value of a query against the key list `K`. -/
def litVal (K : List Triple) (q : QLit) : Int :=
  if q.2 then -(idOf K q.1 : Int) else (idOf K q.1 : Int)

/-- Clause list of a plan when every query resolves against the fixed
key list `K`. -/
def clausesOf (p : List (List QLit)) (K : List Triple) : List Clause :=
  p.map (fun cl => cl.map (litVal K))

/-- The triples queried by the givens loop, in emission order. -/
def givTriples (g : Grid) : List Triple :=
  cells.map (fun rc => (rc.1, rc.2, gcell g rc.1 rc.2))

/-- The fresh triples allocated by the coverage loop: for each cell the
nine digits except the cell's own entry, which the givens loop already
registered. -/
def covFresh (g : Grid) : List Triple :=
  cells.flatMap (fun rc =>
    (digits.filter (fun d => ¬ d = gcell g rc.1 rc.2)).map (fun d => (rc.1, rc.2, d)))

/-- Key list of the registry after one full encoding of `g` starting
from the empty registry. -/
def satKeys (g : Grid) : List Triple := givTriples g ++ covFresh g

/-- Truth of a signed literal under the atom assignment `f`. -/
def litSat (f : Nat → Bool) (l : Int) : Prop :=
  if 0 < l then f l.natAbs = true else f l.natAbs = false

/-- `f` satisfies every clause of `cls` (SAT semantics of the CNF). -/
def satAssign (f : Nat → Bool) (cls : List Clause) : Prop :=
  ∀ cl ∈ cls, ∃ l ∈ cl, litSat f l

/-- The model pysat's `get_model` returns for assignment `f` over
variables `1..n`: entry `i` is `±i`, positive iff `f i`. -/
def sortedModel (f : Nat → Bool) (n : Nat) : List Int :=
  (List.range' 1 n).map (fun i => if f i then (i : Int) else -(i : Int))

/-- `h` is a full completion of `given`: same 9×9 shape, keeps every
non-zero given entry, fills every blank with a digit `1..9`. -/
def completes (given h : Grid) : Prop :=
  h.length = 9 ∧ (∀ row ∈ h, row.length = 9) ∧
  ∀ r < 9, ∀ c < 9,
    (gcell given r c ≠ 0 → gcell h r c = gcell given r c) ∧
    (gcell given r c = 0 → 1 ≤ gcell h r c ∧ gcell h r c ≤ 9)

/-- A valid solution of the puzzle `given`: a completion that passes
`__check_constraints`. -/
def solves (given h : Grid) : Prop :=
  completes given h ∧ check_constraints h = true

/-- Row-major flattening of a grid. -/
def flatG (g : Grid) : List Int := g.flatMap (fun row => row)

/-- Lexicographic `≤` on integer lists. -/
def lexLe : List Int → List Int → Bool
  | [], _ => true
  | _ :: _, [] => false
  | a :: as, b :: bs => a < b || (a == b && lexLe as bs)

/-- The all-blank grid. -/
def zeroGrid : Grid := List.replicate 9 (List.replicate 9 0)

/-- A concrete fully-solved Sudoku grid (cyclic shift pattern). -/
def fullGrid : Grid :=
  (List.range 9).map (fun r =>
    (List.range 9).map (fun c => ((3 * (r % 3) + r / 3 + c) % 9 + 1 : Int)))

/-- The truth value a solved grid `h` induces on the atom triple `t` of
the encoding of puzzle `g`: true iff the triple's digit is the cell's
given entry or `h`'s entry there. -/
def modelFun (g h : Grid) (t : Triple) : Bool :=
  t.2.2 == gcell g t.1 t.2.1 || t.2.2 == gcell h t.1 t.2.1

/-- `modelFun` as an assignment on atom identifiers, via the final
registry of the encoding of `g`. -/
def modelAssign (g h : Grid) (i : Nat) : Bool :=
  match dictLookup (regOf (satKeys g)).id_atom i with
  | some t => modelFun g h t
  | none => false

/-- The grid has 9 rows of 9 entries (the shape every solver path
preserves). -/
def shape9 (g : Grid) : Prop := g.length = 9 ∧ ∀ row ∈ g, row.length = 9

/-- All entries of the grid are digits `0..9` (the spec's data model for
a puzzle grid). -/
def entries09 (g : Grid) : Prop :=
  ∀ r < 9, ∀ c < 9, 0 ≤ gcell g r c ∧ gcell g r c ≤ 9

/-- Replay a list of decoded writes `solution[r][c] = n` in order. -/
def writeList (l : List Triple) (sol : Grid) : Grid :=
  l.foldl (fun s t => setCell s t.1 t.2.1 t.2.2) sol

/-- The value of the last write to cell `(r, c)` in a write list, if any. -/
def lastVal (l : List Triple) (r c : Nat) : Option Int :=
  l.foldl (fun acc t => if t.1 = r ∧ t.2.1 = c then some t.2.2 else acc) none

/-- The triples of `l` whose atoms (numbered `off+1, off+2, ...` in list
order) are assigned true by `f`, in list order. -/
def selFrom (off : Nat) (l : List Triple) (f : Nat → Bool) : List Triple :=
  (List.range l.length).filterMap (fun k => if f (off + k + 1) then l.get? k else none)

/-- `h` is reachable from the search state `(grid, pos)` of
`__csp_search` over puzzle `given`: it agrees with the candidate `grid`
on every cell before the cursor and on every given cell, and fills each
still-open blank (at or after the cursor, blank in `given`) with a digit
`1..9`. -/
def extendsFrom (given grid h : Grid) (pos : Nat) : Prop :=
  shape9 h
  ∧ (∀ r < 9, ∀ c < 9, (9 * r + c < pos ∨ gcell given r c ≠ 0) →
      gcell h r c = gcell grid r c)
  ∧ (∀ r < 9, ∀ c < 9, (pos ≤ 9 * r + c ∧ gcell given r c = 0) →
      1 ≤ gcell h r c ∧ gcell h r c ≤ 9)

/-- The solutions reachable from search state `(grid, pos)`: extensions
that pass `__check_constraints`. -/
def branchSet (given grid h : Grid) (pos : Nat) : Prop :=
  extendsFrom given grid h pos ∧ check_constraints h = true

/-- Spec reading of "the non-zero entries are pairwise distinct": every
non-zero value occurs at most once in the unit. -/
def pairwiseDistinctNZ (l : List Int) : Prop :=
  ∀ a : Int, a ≠ 0 → l.count a ≤ 1

/-- Row `r` of the grid, read through `gcell`. -/
def rowCells (g : Grid) (r : Nat) : List Int :=
  (List.range 9).map (fun c => gcell g r c)

/-- Column `c` of the grid, read through `gcell`. -/
def colCells (g : Grid) (c : Nat) : List Int :=
  (List.range 9).map (fun r => gcell g r c)

/-- Box `b` (`0..8`) of the grid, read through `gcell`. -/
def boxCells (g : Grid) (b : Nat) : List Int :=
  (List.range 3).flatMap (fun dr =>
    (List.range 3).map (fun dc => gcell g (3 * (b / 3) + dr) (3 * (b % 3) + dc)))

/-- Unfolding `solve_as_sat` on an UNSAT oracle answer. -/
lemma solveAsSat_none_eq (st : SudokuState) : solveAsSat st none =
    (none, { st with reg := (satEncode st.reg st.grid).2,
                     solution := none, solution_found := false }) := rfl

/-- Unfolding `solve_as_sat` on a SAT oracle answer with model `m`. -/
lemma solveAsSat_some_eq (st : SudokuState) (m : List Int) : solveAsSat st (some m) =
    (some (decodeModel (satEncode st.reg st.grid).2 m st.grid),
     { st with reg := (satEncode st.reg st.grid).2,
               solution := some (decodeModel (satEncode st.reg st.grid).2 m st.grid),
               solution_found := true }) := rfl

/-- Unfolding `solve_as_csp`. -/
lemma solveAsCsp_eq (st : SudokuState) : solveAsCsp st =
    (cspSearchF st.grid 82 st.grid 0 0 none,
     { st with solution := cspSearchF st.grid 82 st.grid 0 0 none,
               solution_found := (cspSearchF st.grid 82 st.grid 0 0 none).isSome }) := rfl

/-- Projection helper for the solver return values. -/
lemma pair_state_grid (o : Option Grid) (gr : Grid) (r : AtomReg) (so : Option Grid) (b : Bool) :
    ((o, SudokuState.mk gr r so b) : Option Grid × SudokuState).2.grid = gr := rfl

/-- C6: neither solver mutates the given grid: the `__grid` attribute
after either call is the grid supplied at construction.  (`solve_as_sat`
decodes into a deep copy; `__csp_search` deep-copies the candidate
before every tentative write, and never writes through the alias it is
passed at the top-level call.) -/
theorem solve_does_not_mutate_grid (st : SudokuState) (oracle : Option (List Int)) :
    (solveAsSat st oracle).2.grid = st.grid ∧ (solveAsCsp st).2.grid = st.grid := by
  constructor
  · cases oracle with
    | none =>
        exact (congrArg (fun p => p.2.grid) (solveAsSat_none_eq st)).trans
          (pair_state_grid none st.grid ((satEncode st.reg st.grid).2) none false)
    | some m =>
        exact (congrArg (fun p => p.2.grid) (solveAsSat_some_eq st m)).trans
          (pair_state_grid _ st.grid ((satEncode st.reg st.grid).2) _ true)
  · exact (congrArg (fun p => p.2.grid) (solveAsCsp_eq st)).trans
      (pair_state_grid _ st.grid st.reg _ _)

/-- Characterisation of `__init__` as a single dimension test. -/
lemma sudokuInit_eq_ite (g : Grid) :
    sudokuInit g =
      if g.length = 9 ∧ (∀ row ∈ g, row.length = 9) then
        Except.ok ⟨g, ⟨[], []⟩, none, false⟩
      else Except.error "Wrong grid size" := by
  unfold sudokuInit GRID_LEN
  split
  · next h1 => rw [if_neg (fun hc => h1 hc.1)]
  · next h1 =>
    split
    · next h2 =>
      rw [if_neg]
      intro hc
      rcases List.any_eq_true.mp h2 with ⟨row, hrow, hne⟩
      exact absurd (hc.2 row hrow) (by simpa using hne)
    · next h2 =>
      rw [if_pos]
      refine ⟨Decidable.not_not.mp h1, ?_⟩
      intro row hrow
      by_contra hne
      exact h2 (List.any_eq_true.mpr ⟨row, hrow, by simpa using hne⟩)

/-- C7: construction fails with the dimension error (`ValueError('Wrong
grid size')`, the spec's `InvalidDimensions`) iff the grid does not have
exactly 9 rows of exactly 9 entries; it is raised by the very first
statements of `__init__`, before any encoding state exists, and a
well-dimensioned grid constructs successfully. -/
theorem init_invalid_dimensions (g : Grid) :
    (sudokuInit g = .error "Wrong grid size"
      ↔ ¬(g.length = 9 ∧ ∀ row ∈ g, row.length = 9))
    ∧ ((g.length = 9 ∧ ∀ row ∈ g, row.length = 9) →
        sudokuInit g = .ok ⟨g, ⟨[], []⟩, none, false⟩) := by
  rw [sudokuInit_eq_ite]
  by_cases h : g.length = 9 ∧ ∀ row ∈ g, row.length = 9
  · rw [if_pos h]
    exact ⟨⟨fun hc => Except.noConfusion hc, fun hn => absurd h hn⟩, fun _ => rfl⟩
  · rw [if_neg h]
    exact ⟨⟨fun _ => h, fun _ => rfl⟩, fun hgood => absurd hgood h⟩

/-- Witness for C7: an 8-row grid is rejected, and a full 9×9 zero grid
constructs successfully. -/
theorem init_invalid_dimensions_witness :
    sudokuInit (List.replicate 8 (List.replicate 9 (0 : Int))) = .error "Wrong grid size"
    ∧ sudokuInit (List.replicate 9 (List.replicate 9 (0 : Int)))
        = .ok ⟨List.replicate 9 (List.replicate 9 (0 : Int)), ⟨[], []⟩, none, false⟩ :=
  ⟨(init_invalid_dimensions _).1.mpr (by decide),
   (init_invalid_dimensions _).2 (by decide)⟩

/-- C10: the constructor checks only the dimensions — any grid with 9
rows of 9 integer entries is accepted, whatever the entry values
(negative, greater than 9, ...), and the grid is stored as-is. -/
theorem init_no_value_validation (g : Grid) (h1 : g.length = 9)
    (h2 : ∀ row ∈ g, row.length = 9) :
    sudokuInit g = .ok ⟨g, ⟨[], []⟩, none, false⟩ := by
  rw [sudokuInit_eq_ite, if_pos ⟨h1, h2⟩]

/-- Witness for C10: a 9×9 grid containing `-5` and `17` (values far
outside `0..9`) is accepted by the constructor. -/
theorem init_no_value_validation_witness :
    sudokuInit (((-5 : Int) :: (17 : Int) :: List.replicate 7 (0 : Int))
        :: List.replicate 8 (List.replicate 9 (0 : Int)))
      = .ok ⟨((-5 : Int) :: (17 : Int) :: List.replicate 7 (0 : Int))
        :: List.replicate 8 (List.replicate 9 (0 : Int)), ⟨[], []⟩, none, false⟩ :=
  init_no_value_validation _ (by decide) (by decide)

/-! ### Registry lemmas -/

lemma posOf_lt_length {α : Type} [DecidableEq α] {l : List α} {t : α} (h : t ∈ l) : posOf l t < l.length := by
  induction l with
  | nil => simp at h
  | cons x xs ih =>
    by_cases hx : x = t
    · simp [posOf, hx]
    · have ht : t ∈ xs := by
        rcases List.mem_cons.mp h with h1 | h1
        · exact absurd h1.symm hx
        · exact h1
      simp only [posOf, if_neg hx, List.length_cons]
      exact Nat.succ_lt_succ (ih ht)

lemma posOf_append_left {α : Type} [DecidableEq α] {l : List α} {t : α} (h : t ∈ l) (l' : List α) :
    posOf (l ++ l') t = posOf l t := by
  induction l with
  | nil => simp at h
  | cons x xs ih =>
    by_cases hx : x = t
    · simp [posOf, hx]
    · have ht : t ∈ xs := by
        rcases List.mem_cons.mp h with h1 | h1
        · exact absurd h1.symm hx
        · exact h1
      simp [posOf, if_neg hx, ih ht]

lemma posOf_append_right {α : Type} [DecidableEq α] {l : List α} {t : α} (h : t ∉ l) (l' : List α) :
    posOf (l ++ l') t = l.length + posOf l' t := by
  induction l with
  | nil => simp
  | cons x xs ih =>
    have hx : x ≠ t := fun he => h (he ▸ List.mem_cons_self x xs)
    have ht : t ∉ xs := fun hm => h (List.mem_cons_of_mem _ hm)
    simp [posOf, if_neg hx, ih ht]
    omega

lemma get?_posOf {α : Type} [DecidableEq α] {l : List α} {t : α} (h : t ∈ l) :
    l.get? (posOf l t) = some t := by
  induction l with
  | nil => simp at h
  | cons x xs ih =>
    by_cases hx : x = t
    · simp [posOf, hx]
    · have ht : t ∈ xs := by
        rcases List.mem_cons.mp h with h1 | h1
        · exact absurd h1.symm hx
        · exact h1
      simp only [posOf, if_neg hx, List.get?_cons_succ]
      exact ih ht

lemma regOfAux_fst_length (ts : List Triple) (n : Nat) :
    (regOfAux ts n).1.length = ts.length := by
  induction ts generalizing n with
  | nil => simp [regOfAux]
  | cons t rest ih => simp [regOfAux, ih]

lemma regOf_atom_id_length (ts : List Triple) : (regOf ts).atom_id.length = ts.length :=
  regOfAux_fst_length ts 0

lemma dictLookup_regOfAux_fst (ts : List Triple) (n : Nat) (t : Triple) :
    dictLookup (regOfAux ts n).1 t =
      if t ∈ ts then some (n + posOf ts t + 1) else none := by
  induction ts generalizing n with
  | nil => simp [regOfAux, dictLookup]
  | cons x rest ih =>
    by_cases hx : x = t
    · subst hx
      have hfind : dictLookup (regOfAux (x :: rest) n).1 x = some (n + 1) := by
        simp only [regOfAux, dictLookup]
        rw [List.find?_cons_of_pos _ (by simp)]
        rfl
      rw [hfind, if_pos (List.mem_cons_self _ _)]
      simp [posOf]
    · have hstep : dictLookup (regOfAux (x :: rest) n).1 t =
          dictLookup (regOfAux rest (n + 1)).1 t := by
        simp only [regOfAux, dictLookup]
        rw [List.find?_cons_of_neg _ (by simp only [decide_eq_true_eq]; exact hx)]
      rw [hstep, ih (n + 1)]
      by_cases hm : t ∈ rest
      · rw [if_pos hm, if_pos (List.mem_cons_of_mem _ hm)]
        simp only [posOf, if_neg hx]
        congr 1
        omega
      · rw [if_neg hm, if_neg]
        intro hc
        rcases List.mem_cons.mp hc with h1 | h1
        · exact hx h1.symm
        · exact hm h1

lemma dictLookup_regOf_fst (ts : List Triple) (t : Triple) :
    dictLookup (regOf ts).atom_id t = if t ∈ ts then some (idOf ts t) else none := by
  have := dictLookup_regOfAux_fst ts 0 t
  simpa [regOf, idOf] using this

lemma dictLookup_regOfAux_snd (ts : List Triple) (n i : Nat) :
    dictLookup (regOfAux ts n).2 (n + i + 1) = ts.get? i := by
  induction ts generalizing n i with
  | nil => simp [regOfAux, dictLookup]
  | cons x rest ih =>
    cases i with
    | zero => simp [regOfAux, dictLookup]
    | succ j =>
      have hstep : dictLookup (regOfAux (x :: rest) n).2 (n + (j + 1) + 1) =
          dictLookup (regOfAux rest (n + 1)).2 (n + (j + 1) + 1) := by
        simp only [regOfAux, dictLookup]
        rw [List.find?_cons_of_neg _ (by simp only [decide_eq_true_eq]; omega)]
      rw [hstep, show n + (j + 1) + 1 = (n + 1) + j + 1 by omega, ih (n + 1) j]
      simp

lemma dictLookup_regOf_snd (ts : List Triple) (i : Nat) :
    dictLookup (regOf ts).id_atom (i + 1) = ts.get? i := by
  have := dictLookup_regOfAux_snd ts 0 i
  simpa [regOf] using this

lemma regOfAux_append (ts : List Triple) (t : Triple) (n : Nat) :
    regOfAux (ts ++ [t]) n =
      ((regOfAux ts n).1 ++ [(t, n + ts.length + 1)],
       (regOfAux ts n).2 ++ [(n + ts.length + 1, t)]) := by
  induction ts generalizing n with
  | nil => simp [regOfAux]
  | cons x rest ih =>
    have hc : (x :: rest) ++ [t] = x :: (rest ++ [t]) := rfl
    rw [hc]
    simp only [regOfAux, List.length_cons]
    rw [ih (n + 1)]
    rw [show n + 1 + rest.length + 1 = n + (rest.length + 1) + 1 by omega]
    simp

lemma regOf_append (ts : List Triple) (t : Triple) :
    regOf (ts ++ [t]) =
      ⟨(regOf ts).atom_id ++ [(t, ts.length + 1)],
       (regOf ts).id_atom ++ [(ts.length + 1, t)]⟩ := by
  have := regOfAux_append ts t 0
  simp only [regOf, this, Nat.zero_add]

/-- Characterisation of `__atom` on a canonical registry state. -/
lemma atom_regOf (ts : List Triple) (t : Triple) :
    atom (regOf ts) t =
      if t ∈ ts then (idOf ts t, regOf ts)
      else (ts.length + 1, regOf (ts ++ [t])) := by
  by_cases hm : t ∈ ts
  · rw [if_pos hm]
    unfold atom
    rw [dictLookup_regOf_fst, if_pos hm]
  · rw [if_neg hm]
    unfold atom
    rw [dictLookup_regOf_fst, if_neg hm]
    rw [regOf_append, regOf_atom_id_length]


/-- C5: `__atom` on a reachable registry state (canonical key list `ts`,
pairwise distinct).  A first call for a fresh triple returns
`len(self.__atom_id) + 1`, i.e. one plus the number of triples registered
before it (so identifiers are 1-based and increase in encounter order);
a later call for the same triple returns that same identifier with the
registry unchanged; and the reverse dict `__id_atom` maps the returned
identifier back to exactly the queried triple. -/
theorem atom_registry_roundtrip (ts : List Triple) (t : Triple) (hnd : ts.Nodup) :
    (t ∉ ts →
      atom (regOf ts) t = ((regOf ts).atom_id.length + 1, regOf (ts ++ [t]))
      ∧ atom (regOf (ts ++ [t])) t = ((regOf ts).atom_id.length + 1, regOf (ts ++ [t])))
    ∧ (t ∈ ts → atom (regOf ts) t = (idOf ts t, regOf ts))
    ∧ dictLookup ((atom (regOf ts) t).2).id_atom ((atom (regOf ts) t).1) = some t := by
  refine ⟨?_, ?_, ?_⟩
  · intro hm
    rw [regOf_atom_id_length]
    constructor
    · rw [atom_regOf, if_neg hm]
    · rw [atom_regOf, if_pos (List.mem_append.mpr (Or.inr (List.mem_cons_self t [])))]
      unfold idOf
      rw [posOf_append_right hm]
      simp [posOf]
  · intro hm
    rw [atom_regOf, if_pos hm]
  · by_cases hm : t ∈ ts
    · rw [atom_regOf, if_pos hm]
      unfold idOf
      rw [dictLookup_regOf_snd, get?_posOf hm]
    · rw [atom_regOf, if_neg hm]
      rw [show ts.length + 1 = ts.length + 0 + 1 by omega]
      rw [show ts.length + 0 = (ts ++ [t]).length.pred by simp]
      have : (ts ++ [t]).length.pred = ts.length := by simp
      rw [this, dictLookup_regOf_snd, List.get?_concat_length]

/-- Witness for C5 on a concrete two-entry registry and a fresh triple. -/
theorem atom_registry_roundtrip_witness :
    ([((0 : Nat), (0 : Nat), (1 : Int)), (1, 2, 3)] : List Triple).Nodup
    ∧ (((0 : Nat), (0 : Nat), (5 : Int)) ∉
         ([((0 : Nat), (0 : Nat), (1 : Int)), (1, 2, 3)] : List Triple) →
        atom (regOf [((0 : Nat), (0 : Nat), (1 : Int)), (1, 2, 3)]) (0, 0, 5)
          = ((regOf [((0 : Nat), (0 : Nat), (1 : Int)), (1, 2, 3)]).atom_id.length + 1,
             regOf ([((0 : Nat), (0 : Nat), (1 : Int)), (1, 2, 3)] ++ [(0, 0, 5)]))
        ∧ atom (regOf ([((0 : Nat), (0 : Nat), (1 : Int)), (1, 2, 3)] ++ [(0, 0, 5)])) (0, 0, 5)
          = ((regOf [((0 : Nat), (0 : Nat), (1 : Int)), (1, 2, 3)]).atom_id.length + 1,
             regOf ([((0 : Nat), (0 : Nat), (1 : Int)), (1, 2, 3)] ++ [(0, 0, 5)])))
    ∧ (((0 : Nat), (0 : Nat), (5 : Int)) ∈
         ([((0 : Nat), (0 : Nat), (1 : Int)), (1, 2, 3)] : List Triple) →
        atom (regOf [((0 : Nat), (0 : Nat), (1 : Int)), (1, 2, 3)]) (0, 0, 5)
          = (idOf [((0 : Nat), (0 : Nat), (1 : Int)), (1, 2, 3)] (0, 0, 5),
             regOf [((0 : Nat), (0 : Nat), (1 : Int)), (1, 2, 3)]))
    ∧ dictLookup ((atom (regOf [((0 : Nat), (0 : Nat), (1 : Int)), (1, 2, 3)]) (0, 0, 5)).2).id_atom
        ((atom (regOf [((0 : Nat), (0 : Nat), (1 : Int)), (1, 2, 3)]) (0, 0, 5)).1)
        = some (0, 0, 5) :=
  ⟨by decide, atom_registry_roundtrip [((0 : Nat), (0 : Nat), (1 : Int)), (1, 2, 3)] (0, 0, 5) (by decide)⟩

/-! ### Key-list evolution of the encoder -/

lemma keysAfter_cons (ts : List Triple) (q : Triple) (qs : List Triple) :
    keysAfter ts (q :: qs) = keysAfter (if q ∈ ts then ts else ts ++ [q]) qs := rfl

lemma keysAfter_append_queries (ts qs qs' : List Triple) :
    keysAfter ts (qs ++ qs') = keysAfter (keysAfter ts qs) qs' := by
  induction qs generalizing ts with
  | nil => rfl
  | cons q rest ih =>
    rw [List.cons_append, keysAfter_cons, keysAfter_cons, ih]

lemma keysAfter_eq_append (ts qs : List Triple) : ∃ z, keysAfter ts qs = ts ++ z := by
  induction qs generalizing ts with
  | nil => exact ⟨[], by simp [keysAfter]⟩
  | cons q rest ih =>
    rw [keysAfter_cons]
    by_cases hq : q ∈ ts
    · rw [if_pos hq]; exact ih ts
    · rw [if_neg hq]
      rcases ih (ts ++ [q]) with ⟨z, hz⟩
      exact ⟨q :: z, by simpa using hz⟩

lemma mem_keysAfter_left {ts : List Triple} {t : Triple} (h : t ∈ ts) (qs : List Triple) :
    t ∈ keysAfter ts qs := by
  rcases keysAfter_eq_append ts qs with ⟨z, hz⟩
  rw [hz]
  exact List.mem_append.mpr (Or.inl h)

lemma mem_keysAfter_query {qs : List Triple} {q : Triple} (h : q ∈ qs) (ts : List Triple) :
    q ∈ keysAfter ts qs := by
  induction qs generalizing ts with
  | nil => simp at h
  | cons a rest ih =>
    rw [keysAfter_cons]
    rcases List.mem_cons.mp h with h1 | h1
    · subst h1
      by_cases ha : q ∈ ts
      · rw [if_pos ha]; exact mem_keysAfter_left ha rest
      · rw [if_neg ha]
        exact mem_keysAfter_left (List.mem_append.mpr (Or.inr (List.mem_cons_self q []))) rest
    · exact ih h1 _

lemma keysAfter_all_mem {ts qs : List Triple} (h : ∀ q ∈ qs, q ∈ ts) :
    keysAfter ts qs = ts := by
  induction qs with
  | nil => rfl
  | cons q rest ih =>
    rw [keysAfter_cons, if_pos (h q (List.mem_cons_self q rest))]
    exact ih (fun a ha => h a (List.mem_cons_of_mem _ ha))

lemma keysAfter_of_nodup {qs : List Triple} (hnd : qs.Nodup) (ts : List Triple) :
    keysAfter ts qs = ts ++ qs.filter (fun q => decide (q ∉ ts)) := by
  induction qs generalizing ts with
  | nil => simp [keysAfter]
  | cons q rest ih =>
    have hq_rest : q ∉ rest := (List.nodup_cons.mp hnd).1
    have hnd' : rest.Nodup := (List.nodup_cons.mp hnd).2
    rw [keysAfter_cons]
    by_cases hq : q ∈ ts
    · rw [if_pos hq, ih hnd' ts, List.filter_cons]
      rw [if_neg (by simpa using hq)]
    · rw [if_neg hq, ih hnd' (ts ++ [q]), List.filter_cons, if_pos (by simpa using hq)]
      have : rest.filter (fun a => decide (a ∉ ts ++ [q]))
           = rest.filter (fun a => decide (a ∉ ts)) := by
        apply List.filter_congr
        intro a ha
        have hne : a ≠ q := fun he => hq_rest (he ▸ ha)
        simp only [decide_eq_decide, List.mem_append, List.mem_singleton]
        constructor
        · intro hc hm; exact hc (Or.inl hm)
        · intro hc hm
          rcases hm with hm | hm
          · exact hc hm
          · exact hne hm
      rw [this]
      simp

lemma litVal_append {K : List Triple} {q : QLit} (h : q.1 ∈ K) (z : List Triple) :
    litVal (K ++ z) q = litVal K q := by
  unfold litVal idOf
  rw [posOf_append_left h]

/-- One `__literal` call on a canonical registry, phrased through
`keysAfter`. -/
lemma literal_regOf (ts : List Triple) (t : Triple) (neg : Bool) :
    literal (regOf ts) t neg =
      (litVal (keysAfter ts [t]) (t, neg), regOf (keysAfter ts [t])) := by
  unfold literal
  rw [atom_regOf]
  by_cases hm : t ∈ ts
  · rw [if_pos hm]
    have hk : keysAfter ts [t] = ts := keysAfter_all_mem (by simpa using hm)
    rw [hk]
    unfold litVal
    cases neg <;> simp [idOf]
  · rw [if_neg hm]
    have hk : keysAfter ts [t] = ts ++ [t] := by
      rw [keysAfter_cons, if_neg hm]
      rfl
    rw [hk]
    unfold litVal idOf
    rw [posOf_append_right hm]
    cases neg <;> simp [posOf]

/-- Emission of one clause on a canonical registry: the clause is the
template evaluated against the final key list, which grows by the fresh
queried triples in order. -/
lemma runClause_regOf (cl : List QLit) (ts : List Triple) :
    runClause cl (regOf ts) =
      (cl.map (litVal (keysAfter ts (cl.map (·.1)))),
       regOf (keysAfter ts (cl.map (·.1)))) := by
  induction cl generalizing ts with
  | nil => simp [runClause, keysAfter]
  | cons q rest ih =>
    have hq : keysAfter ts (((q :: rest).map (·.1)))
        = keysAfter (keysAfter ts [q.1]) (rest.map (·.1)) := by
      rw [show ((q :: rest).map (·.1)) = [q.1] ++ rest.map (·.1) by simp]
      exact keysAfter_append_queries _ _ _
    rw [hq]
    show (let (l, s') := literal (regOf ts) q.1 q.2;
          let (ls, s'') := runClause rest s'
          (l :: ls, s'')) = _
    rw [literal_regOf]
    show (let (ls, s'') := runClause rest (regOf (keysAfter ts [q.1]))
          (litVal (keysAfter ts [q.1]) (q.1, q.2) :: ls, s'')) = _
    rw [ih (keysAfter ts [q.1])]
    show (litVal (keysAfter ts [q.1]) (q.1, q.2)
            :: rest.map (litVal (keysAfter (keysAfter ts [q.1])
                 (rest.map (fun q : QLit => q.1)))),
          regOf (keysAfter (keysAfter ts [q.1]) (rest.map (fun q : QLit => q.1)))) = _
    have hmem : q.1 ∈ keysAfter ts [q.1] :=
      mem_keysAfter_query (List.mem_cons_self q.1 []) ts
    rcases keysAfter_eq_append (keysAfter ts [q.1]) (rest.map (·.1)) with ⟨z, hz⟩
    have hlit : litVal (keysAfter (keysAfter ts [q.1]) (rest.map (·.1))) (q.1, q.2)
        = litVal (keysAfter ts [q.1]) (q.1, q.2) := by
      rw [hz]
      exact litVal_append hmem z
    rw [List.map_cons]
    rw [hlit]

/-- Emission of a whole plan on a canonical registry. -/
lemma runPlan_regOf (p : List (List QLit)) (ts : List Triple) :
    runPlan p (regOf ts) =
      (clausesOf p (keysAfter ts (planQueries p)),
       regOf (keysAfter ts (planQueries p))) := by
  induction p generalizing ts with
  | nil => simp [runPlan, keysAfter, clausesOf, planQueries]
  | cons cl rest ih =>
    have hq : keysAfter ts (planQueries (cl :: rest))
        = keysAfter (keysAfter ts (cl.map (·.1))) (planQueries rest) := by
      rw [show planQueries (cl :: rest) = cl.map (·.1) ++ planQueries rest by
        simp [planQueries, List.flatMap_cons]]
      exact keysAfter_append_queries _ _ _
    rw [hq]
    show (let (c, s') := runClause cl (regOf ts)
          let (cs, s'') := runPlan rest s'
          (c :: cs, s'')) = _
    rw [runClause_regOf]
    show (let (cs, s'') := runPlan rest (regOf (keysAfter ts (cl.map (fun q : QLit => q.1))))
          (cl.map (litVal (keysAfter ts (cl.map (fun q : QLit => q.1)))) :: cs, s'')) = _
    rw [ih (keysAfter ts (cl.map (fun q : QLit => q.1)))]
    show (cl.map (litVal (keysAfter ts (cl.map (fun q : QLit => q.1))))
            :: clausesOf rest (keysAfter (keysAfter ts (cl.map (fun q : QLit => q.1)))
                 (planQueries rest)),
          regOf (keysAfter (keysAfter ts (cl.map (fun q : QLit => q.1)))
            (planQueries rest))) = _
    rcases keysAfter_eq_append (keysAfter ts (cl.map (·.1))) (planQueries rest) with ⟨z, hz⟩
    have hcl : cl.map (litVal (keysAfter (keysAfter ts (cl.map (·.1))) (planQueries rest)))
        = cl.map (litVal (keysAfter ts (cl.map (·.1)))) := by
      apply List.map_congr_left
      intro q hqmem
      rw [hz]
      exact litVal_append (mem_keysAfter_query (List.mem_map_of_mem _ hqmem) ts) z
    unfold clausesOf
    rw [List.map_cons, hcl]

/-! ### Constraint checker characterisation (C3) -/

lemma unitOk_iff (l : List Int) : unitOk l = true ↔ pairwiseDistinctNZ l := by
  unfold unitOk
  rw [beq_iff_eq]
  constructor
  · intro hlen a ha
    have hnd : (l.filter (fun e => decide (e ≠ 0))).Nodup := by
      have hsub := List.dedup_sublist (l.filter (fun e => decide (e ≠ 0)))
      have he := List.Sublist.eq_of_length hsub hlen.symm
      exact List.dedup_eq_self.mp he
    have hcount := List.nodup_iff_count_le_one.mp hnd a
    rw [List.count_filter (by simpa using ha)] at hcount
    exact hcount
  · intro hp
    have hnd : (l.filter (fun e => decide (e ≠ 0))).Nodup := by
      rw [List.nodup_iff_count_le_one]
      intro a
      by_cases ha : a = 0
      · subst ha
        have hnm : (0 : Int) ∉ l.filter (fun e => decide (e ≠ 0)) := by
          intro hmem
          have h := (List.mem_filter.mp hmem).2
          simp at h
        rw [List.count_eq_zero.mpr hnm]
        omega
      · rw [List.count_filter (by simpa using ha)]
        exact hp a ha
    rw [List.dedup_eq_self.mpr hnd]

lemma row_mem {g : Grid} {r : Nat} (hr : r < g.length) : g.getD r [] ∈ g := by
  rw [List.getD_eq_getElem g [] hr]
  exact List.getElem_mem hr

lemma rowCells_get? (g : Grid) (r c : Nat) (hc : c < 9) :
    (rowCells g r).get? c = some (gcell g r c) := by
  unfold rowCells
  rw [List.get?_eq_getElem?, List.getElem?_map, List.getElem?_range hc]
  rfl

lemma colCells_get? (g : Grid) (c r : Nat) (hr : r < 9) :
    (colCells g c).get? r = some (gcell g r c) := by
  unfold colCells
  rw [List.get?_eq_getElem?, List.getElem?_map, List.getElem?_range hr]
  rfl

lemma boxCells_get? (g : Grid) (b : Nat) {dr dc : Nat} (hdr : dr < 3) (hdc : dc < 3) :
    (boxCells g b).get? (3 * dr + dc)
      = some (gcell g (3 * (b / 3) + dr) (3 * (b % 3) + dc)) := by
  interval_cases dr <;> interval_cases dc <;> rfl

lemma rowCells_eq (g : Grid) (h1 : g.length = 9) (h2 : ∀ row ∈ g, row.length = 9)
    {r : Nat} (hr : r < 9) : rowCells g r = g.getD r [] := by
  have hmem : g.getD r [] ∈ g := row_mem (by omega)
  have hlen : (g.getD r []).length = 9 := h2 _ hmem
  apply List.ext_get?
  intro n
  by_cases hn : n < 9
  · rw [rowCells_get? g r n hn, List.get?_eq_getElem?,
      List.getElem?_eq_getElem (show n < (g.getD r []).length by omega)]
    show some ((g.getD r []).getD n 0) = _
    rw [List.getD_eq_getElem (g.getD r []) 0 (show n < (g.getD r []).length by omega)]
  · have e1 : (rowCells g r).get? n = none :=
      List.get?_eq_none.mpr (by simp [rowCells]; omega)
    have e2 : (g.getD r []).get? n = none :=
      List.get?_eq_none.mpr (by omega)
    rw [e1, e2]

lemma colCells_eq (g : Grid) (h1 : g.length = 9) (h2 : ∀ row ∈ g, row.length = 9)
    (c : Nat) : colCells g c = colList g c := by
  apply List.ext_get?
  intro n
  by_cases hn : n < 9
  · have hv : (colList g c).get? n = some ((g.getD n []).getD c 0) := by
      unfold colList
      rw [List.get?_eq_getElem?, List.getElem?_map,
        List.getElem?_eq_getElem (show n < g.length by omega)]
      rw [List.getD_eq_getElem g [] (show n < g.length by omega)]
      rfl
    rw [colCells_get? g c n hn, hv]
    rfl
  · have e1 : (colCells g c).get? n = none :=
      List.get?_eq_none.mpr (by simp [colCells]; omega)
    have e2 : (colList g c).get? n = none :=
      List.get?_eq_none.mpr (by simp [colList]; omega)
    rw [e1, e2]

lemma boxList_eq (g : Grid) (rowS colS : Nat) :
    boxList g rowS colS =
      (List.range 3).flatMap (fun dr =>
        (List.range 3).map (fun dc => gcell g (rowS + dr) (colS + dc))) := by
  unfold boxList SUBGRID_LEN
  rw [List.range'_eq_map_range, List.range'_eq_map_range, List.flatMap_map]
  simp only [List.map_map]
  rfl

lemma boxCells_eq (g : Grid) (bi bj : Nat) (hbi : bi < 3) (hbj : bj < 3) :
    boxCells g (3 * bi + bj) = boxList g (3 * bi) (3 * bj) := by
  rw [boxList_eq]
  unfold boxCells
  rw [show (3 * bi + bj) / 3 = bi by omega, show (3 * bi + bj) % 3 = bj by omega]

lemma checkBoxes_iff (g : Grid) :
    checkBoxes g = true ↔ ∀ b < 9, unitOk (boxList g (3 * (b / 3)) (3 * (b % 3))) = true := by
  unfold checkBoxes SUBGRID_LEN
  rw [List.all_eq_true]
  constructor
  · intro hall b hb
    have h1 := hall (b / 3) (List.mem_range.mpr (by omega))
    rw [List.all_eq_true] at h1
    exact h1 (b % 3) (List.mem_range.mpr (by omega))
  · intro h bi hbi
    rw [List.all_eq_true]
    intro bj hbj
    have hbi3 : bi < 3 := List.mem_range.mp hbi
    have hbj3 : bj < 3 := List.mem_range.mp hbj
    have := h (3 * bi + bj) (by omega)
    rw [show (3 * bi + bj) / 3 = bi by omega, show (3 * bi + bj) % 3 = bj by omega] at this
    exact this

/-- C3: `__check_constraints(grid)` is `True` iff in every row, every
column and every 3×3 box the non-zero entries are pairwise distinct
(no non-zero value occurs twice in a unit); zero entries never make the
check fail (only values `≠ 0` are counted), and the embedding is a pure
function of the grid. -/
theorem check_constraints_iff_distinct (g : Grid) (h1 : g.length = 9)
    (h2 : ∀ row ∈ g, row.length = 9) :
    check_constraints g = true ↔
      ((∀ r < 9, pairwiseDistinctNZ (rowCells g r))
       ∧ (∀ c < 9, pairwiseDistinctNZ (colCells g c))
       ∧ (∀ b < 9, pairwiseDistinctNZ (boxCells g b))) := by
  unfold check_constraints
  rw [Bool.and_eq_true, Bool.and_eq_true]
  have hrows : checkRows g = true ↔ ∀ r < 9, pairwiseDistinctNZ (rowCells g r) := by
    unfold checkRows
    rw [List.all_eq_true]
    constructor
    · intro hall r hr
      rw [← unitOk_iff, rowCells_eq g h1 h2 hr]
      exact hall _ (row_mem (by omega))
    · intro hall row hrow
      rcases List.mem_iff_get.mp hrow with ⟨⟨n, hn⟩, hget⟩
      have h9 : n < 9 := by omega
      have hrw : row = g.getD n [] := by
        rw [List.getD_eq_getElem g [] hn, ← hget]
        rfl
      rw [hrw, ← rowCells_eq g h1 h2 h9, unitOk_iff]
      exact hall n h9
  have hcols : checkCols g = true ↔ ∀ c < 9, pairwiseDistinctNZ (colCells g c) := by
    unfold checkCols GRID_LEN
    rw [List.all_eq_true]
    constructor
    · intro hall c hc
      rw [← unitOk_iff, colCells_eq g h1 h2 c]
      exact hall _ (List.mem_range.mpr hc)
    · intro hall c hc
      have hc9 : c < 9 := List.mem_range.mp hc
      rw [← colCells_eq g h1 h2 c, unitOk_iff]
      exact hall c hc9
  have hboxes : checkBoxes g = true ↔ ∀ b < 9, pairwiseDistinctNZ (boxCells g b) := by
    rw [checkBoxes_iff]
    constructor
    · intro hall b hb
      have := hall b hb
      rw [unitOk_iff] at this
      have hrw := boxCells_eq g (b / 3) (b % 3) (by omega) (by omega)
      rw [show 3 * (b / 3) + b % 3 = b by omega] at hrw
      rw [hrw]
      exact this
    · intro hall b hb
      rw [unitOk_iff]
      have hrw := boxCells_eq g (b / 3) (b % 3) (by omega) (by omega)
      rw [show 3 * (b / 3) + b % 3 = b by omega] at hrw
      rw [← hrw]
      exact hall b hb
  constructor
  · rintro ⟨⟨ha, hb⟩, hc⟩
    exact ⟨hrows.mp ha, hcols.mp hb, hboxes.mp hc⟩
  · rintro ⟨ha, hb, hc⟩
    exact ⟨⟨hrows.mpr ha, hcols.mpr hb⟩, hboxes.mpr hc⟩

/-- Witness for C3 at the concrete solved grid `fullGrid`. -/
theorem check_constraints_iff_distinct_witness :
    fullGrid.length = 9 ∧ (∀ row ∈ fullGrid, row.length = 9)
    ∧ (check_constraints fullGrid = true ↔
        ((∀ r < 9, pairwiseDistinctNZ (rowCells fullGrid r))
         ∧ (∀ c < 9, pairwiseDistinctNZ (colCells fullGrid c))
         ∧ (∀ b < 9, pairwiseDistinctNZ (boxCells fullGrid b)))) :=
  ⟨by decide, by decide, check_constraints_iff_distinct fullGrid (by decide) (by decide)⟩

/-! ### The key list of a full encoding (closed form) -/

lemma flatMap_one {α β : Type} (l : List α) (f : α → β) :
    l.flatMap (fun a => [f a]) = l.map f := by
  induction l with
  | nil => rfl
  | cons x xs ih => simp [List.flatMap_cons, ih]

lemma filter_flatMap {α β : Type} (l : List α) (f : α → List β) (p : β → Bool) :
    (l.flatMap f).filter p = l.flatMap (fun a => (f a).filter p) := by
  induction l with
  | nil => rfl
  | cons x xs ih => simp [List.flatMap_cons, List.filter_append, ih]

lemma flatMap_congr_mem {α β : Type} {l : List α} {f g : α → List β}
    (h : ∀ a ∈ l, f a = g a) : l.flatMap f = l.flatMap g := by
  induction l with
  | nil => rfl
  | cons x xs ih =>
    rw [List.flatMap_cons, List.flatMap_cons, h x (List.mem_cons_self x xs),
      ih (fun a ha => h a (List.mem_cons_of_mem _ ha))]

lemma posOf_map {α β : Type} [DecidableEq α] [DecidableEq β] {f : α → β}
    (hf : Function.Injective f) (l : List α) (a : α) :
    posOf (l.map f) (f a) = posOf l a := by
  induction l with
  | nil => rfl
  | cons x xs ih =>
    by_cases hx : x = a
    · simp [posOf, hx]
    · have : ¬ f x = f a := fun he => hx (hf he)
      simp [posOf, if_neg hx, if_neg this, ih]

lemma cells_nodup : cells.Nodup := by decide

lemma cells_length : cells.length = 81 := by decide

lemma mem_cells {r c : Nat} : (r, c) ∈ cells ↔ r < 9 ∧ c < 9 := by
  constructor
  · intro h
    rcases List.mem_flatMap.mp h with ⟨a, ha, hm⟩
    rcases List.mem_map.mp hm with ⟨b, hb, he⟩
    have h1 : a = r := congrArg Prod.fst he
    have h2 : b = c := congrArg Prod.snd he
    subst h1; subst h2
    exact ⟨List.mem_range.mp ha, List.mem_range.mp hb⟩
  · rintro ⟨hr, hc⟩
    exact List.mem_flatMap.mpr ⟨r, List.mem_range.mpr hr,
      List.mem_map.mpr ⟨c, List.mem_range.mpr hc, rfl⟩⟩

lemma posOf_cells : ∀ r < 9, ∀ c < 9, posOf cells ((r : Nat), (c : Nat)) = 9 * r + c := by
  decide

lemma givTriples_inj (g : Grid) :
    Function.Injective (fun rc : Nat × Nat => ((rc.1, rc.2, gcell g rc.1 rc.2) : Triple)) := by
  intro a b he
  have h1 : a.1 = b.1 := congrArg (fun t : Triple => t.1) he
  have h2 : a.2 = b.2 := congrArg (fun t : Triple => t.2.1) he
  exact Prod.ext h1 h2

lemma givTriples_nodup (g : Grid) : (givTriples g).Nodup :=
  List.Nodup.map (givTriples_inj g) cells_nodup

lemma givTriples_length (g : Grid) : (givTriples g).length = 81 := by
  unfold givTriples
  rw [List.length_map, cells_length]

lemma mem_givTriples {g : Grid} {t : Triple} :
    t ∈ givTriples g ↔ ∃ r c, r < 9 ∧ c < 9 ∧ t = (r, c, gcell g r c) := by
  unfold givTriples
  constructor
  · intro h
    rcases List.mem_map.mp h with ⟨rc, hrc, he⟩
    obtain ⟨a, b⟩ := rc
    rcases mem_cells.mp hrc with ⟨hr, hc⟩
    exact ⟨a, b, hr, hc, he.symm⟩
  · rintro ⟨r, c, hr, hc, he⟩
    exact List.mem_map.mpr ⟨(r, c), mem_cells.mpr ⟨hr, hc⟩, he.symm⟩

lemma posOf_givTriples (g : Grid) {r c : Nat} (hr : r < 9) (hc : c < 9) :
    posOf (givTriples g) (r, c, gcell g r c) = 9 * r + c := by
  unfold givTriples
  have he : ((r, c, gcell g r c) : Triple)
      = (fun rc : Nat × Nat => ((rc.1, rc.2, gcell g rc.1 rc.2) : Triple)) (r, c) := rfl
  rw [he, posOf_map (givTriples_inj g)]
  exact posOf_cells r hr c hc

lemma digits_nodup : digits.Nodup := by decide

lemma mem_digits {d : Int} : d ∈ digits ↔ 1 ≤ d ∧ d ≤ 9 := by
  unfold digits
  constructor
  · intro h
    rcases List.mem_map.mp h with ⟨k, hk, he⟩
    have hk9 : k < 9 := List.mem_range.mp hk
    omega
  · rintro ⟨h1, h9⟩
    exact List.mem_map.mpr ⟨(d - 1).toNat, List.mem_range.mpr (by omega), by omega⟩

lemma mem_covFresh {g : Grid} {t : Triple} :
    t ∈ covFresh g ↔ ∃ r c d, r < 9 ∧ c < 9 ∧ d ∈ digits ∧ ¬ d = gcell g r c
      ∧ t = (r, c, d) := by
  unfold covFresh
  constructor
  · intro h
    rcases List.mem_flatMap.mp h with ⟨rc, hrc, hm⟩
    obtain ⟨a, b⟩ := rc
    rcases List.mem_map.mp hm with ⟨d, hd, he⟩
    rcases mem_cells.mp hrc with ⟨ha, hb⟩
    rcases List.mem_filter.mp hd with ⟨hdd, hne⟩
    exact ⟨a, b, d, ha, hb, hdd, by simpa using hne, he.symm⟩
  · rintro ⟨r, c, d, hr, hc, hd, hne, he⟩
    refine List.mem_flatMap.mpr ⟨(r, c), mem_cells.mpr ⟨hr, hc⟩, ?_⟩
    exact List.mem_map.mpr ⟨d, List.mem_filter.mpr ⟨hd, by simpa using hne⟩, he.symm⟩

lemma covFresh_nodup (g : Grid) : (covFresh g).Nodup := by
  unfold covFresh
  rw [List.nodup_flatMap]
  constructor
  · intro rc hrc
    apply List.Nodup.map
    · intro a b he
      exact congrArg (fun t : Triple => t.2.2) he
    · exact List.Nodup.filter _ digits_nodup
  · have := cells_nodup
    apply List.Pairwise.imp ?_ this
    intro a b hne
    intro t hta htb
    rcases List.mem_map.mp hta with ⟨d, _, he1⟩
    rcases List.mem_map.mp htb with ⟨d2, _, he2⟩
    apply hne
    have h1 : a.1 = t.1 := by rw [← he1]
    have h2 : a.2 = t.2.1 := by rw [← he1]
    have h3 : b.1 = t.1 := by rw [← he2]
    have h4 : b.2 = t.2.1 := by rw [← he2]
    exact Prod.ext (h1.trans h3.symm) (h2.trans h4.symm)

lemma givTriples_covFresh_disjoint (g : Grid) :
    List.Disjoint (givTriples g) (covFresh g) := by
  intro t h1 h2
  rcases mem_givTriples.mp h1 with ⟨r, c, hr, hc, he1⟩
  rcases mem_covFresh.mp h2 with ⟨r2, c2, d, hr2, hc2, hd, hne, he2⟩
  rw [he1] at he2
  have hrr : r = r2 := congrArg (fun t : Triple => t.1) he2
  have hcc : c = c2 := congrArg (fun t : Triple => t.2.1) he2
  have hdd : gcell g r c = d := congrArg (fun t : Triple => t.2.2) he2
  exact hne (by rw [← hdd, hrr, hcc])

lemma satKeys_nodup (g : Grid) : (satKeys g).Nodup := by
  unfold satKeys
  rw [List.nodup_append]
  exact ⟨givTriples_nodup g, covFresh_nodup g, givTriples_covFresh_disjoint g⟩

lemma mem_satKeys {g : Grid} {r c : Nat} (hr : r < 9) (hc : c < 9) (d : Int)
    (hd : d ∈ digits ∨ d = gcell g r c) : ((r, c, d) : Triple) ∈ satKeys g := by
  unfold satKeys
  by_cases he : d = gcell g r c
  · subst he
    exact List.mem_append.mpr (Or.inl (mem_givTriples.mpr ⟨r, c, hr, hc, rfl⟩))
  · rcases hd with hd | hd
    · exact List.mem_append.mpr (Or.inr (mem_covFresh.mpr ⟨r, c, d, hr, hc, hd, he, rfl⟩))
    · exact absurd hd he

lemma mem_satKeys_shape {g : Grid} {t : Triple} (h : t ∈ satKeys g) :
    t.1 < 9 ∧ t.2.1 < 9 ∧ (t.2.2 = gcell g t.1 t.2.1 ∨ t.2.2 ∈ digits) := by
  rcases List.mem_append.mp h with h | h
  · rcases mem_givTriples.mp h with ⟨r, c, hr, hc, he⟩
    subst he
    exact ⟨hr, hc, Or.inl rfl⟩
  · rcases mem_covFresh.mp h with ⟨r, c, d, hr, hc, hd, hne, he⟩
    subst he
    exact ⟨hr, hc, Or.inr hd⟩

lemma idOf_satKeys_giv (g : Grid) {r c : Nat} (hr : r < 9) (hc : c < 9) :
    idOf (satKeys g) (r, c, gcell g r c) = 9 * r + c + 1 := by
  unfold idOf satKeys
  rw [posOf_append_left (mem_givTriples.mpr ⟨r, c, hr, hc, rfl⟩), posOf_givTriples g hr hc]

lemma idOf_satKeys_fresh (g : Grid) {r c : Nat} {d : Int} (hr : r < 9) (hc : c < 9)
    (hd : d ∈ digits) (hne : ¬ d = gcell g r c) :
    idOf (satKeys g) (r, c, d) = 82 + posOf (covFresh g) (r, c, d) := by
  unfold idOf satKeys
  have hnm : ((r, c, d) : Triple) ∉ givTriples g := by
    intro hmem
    rcases mem_givTriples.mp hmem with ⟨r2, c2, _, _, he⟩
    have hrr : r = r2 := congrArg (fun t : Triple => t.1) he
    have hcc : c = c2 := congrArg (fun t : Triple => t.2.1) he
    have hdd : d = gcell g r2 c2 := congrArg (fun t : Triple => t.2.2) he
    exact hne (by rw [hdd, ← hrr, ← hcc])
  rw [posOf_append_right hnm, givTriples_length]
  omega

/-! ### Closed form of the encoder run -/

lemma planQueries_append (p p' : List (List QLit)) :
    planQueries (p ++ p') = planQueries p ++ planQueries p' := by
  unfold planQueries
  exact List.flatMap_append p p' _

lemma planQueries_givens (g : Grid) : planQueries (givensPlan g) = givTriples g := by
  unfold planQueries givensPlan givTriples
  rw [List.flatMap_map]
  exact flatMap_one _ _

lemma planQueries_coverage :
    planQueries coveragePlan
      = cells.flatMap (fun rc => digits.map (fun d => ((rc.1, rc.2, d) : Triple))) := by
  unfold planQueries coveragePlan
  rw [List.flatMap_map]
  apply flatMap_congr_mem
  intro rc _
  rw [List.map_map]
  rfl

lemma rowPlan_shape : ∀ cl ∈ rowPlan, ∀ q ∈ cl,
    (q : QLit).1.1 < 9 ∧ q.1.2.1 < 9 ∧ q.1.2.2 ∈ digits := by
  intro cl hcl q hq
  unfold rowPlan at hcl
  rcases List.mem_flatMap.mp hcl with ⟨row, hrow, h2⟩
  rcases List.mem_flatMap.mp h2 with ⟨cA, hcA, h3⟩
  rcases List.mem_flatMap.mp h3 with ⟨cB, hcB, h4⟩
  rcases List.mem_map.mp h4 with ⟨d, hd, he⟩
  subst he
  have hrow9 := List.mem_range.mp hrow
  have hcA9 := List.mem_range.mp hcA
  have hcB9 : cB < 9 := by
    have := (List.mem_range'_1.mp hcB).2
    omega
  rcases List.mem_cons.mp hq with he | hq2
  · subst he; exact ⟨hrow9, hcA9, hd⟩
  · rcases List.mem_cons.mp hq2 with he | hq3
    · subst he; exact ⟨hrow9, hcB9, hd⟩
    · simp at hq3

lemma colPlan_shape : ∀ cl ∈ colPlan, ∀ q ∈ cl,
    (q : QLit).1.1 < 9 ∧ q.1.2.1 < 9 ∧ q.1.2.2 ∈ digits := by
  intro cl hcl q hq
  unfold colPlan at hcl
  rcases List.mem_flatMap.mp hcl with ⟨col, hcol, h2⟩
  rcases List.mem_flatMap.mp h2 with ⟨rA, hrA, h3⟩
  rcases List.mem_flatMap.mp h3 with ⟨rB, hrB, h4⟩
  rcases List.mem_map.mp h4 with ⟨d, hd, he⟩
  subst he
  have hcol9 := List.mem_range.mp hcol
  have hrA9 := List.mem_range.mp hrA
  have hrB9 : rB < 9 := by
    have := (List.mem_range'_1.mp hrB).2
    omega
  rcases List.mem_cons.mp hq with he | hq2
  · subst he; exact ⟨hrA9, hcol9, hd⟩
  · rcases List.mem_cons.mp hq2 with he | hq3
    · subst he; exact ⟨hrB9, hcol9, hd⟩
    · simp at hq3

lemma boxPlan_shape : ∀ cl ∈ boxPlan, ∀ q ∈ cl,
    (q : QLit).1.1 < 9 ∧ q.1.2.1 < 9 ∧ q.1.2.2 ∈ digits := by
  intro cl hcl q hq
  unfold boxPlan at hcl
  rcases List.mem_flatMap.mp hcl with ⟨bi, hbi, h2⟩
  rcases List.mem_flatMap.mp h2 with ⟨bj, hbj, h3⟩
  rcases List.mem_flatMap.mp h3 with ⟨rA, hrA, h4⟩
  rcases List.mem_flatMap.mp h4 with ⟨cA, hcA, h5⟩
  rcases List.mem_flatMap.mp h5 with ⟨rB, hrB, h6⟩
  rcases List.mem_flatMap.mp h6 with ⟨cB, hcB, h7⟩
  have hbi3 := List.mem_range.mp hbi
  have hbj3 := List.mem_range.mp hbj
  have hrA9 : rA < 9 := by
    have := (List.mem_range'_1.mp hrA).2
    omega
  have hcA9 : cA < 9 := by
    have := (List.mem_range'_1.mp hcA).2
    omega
  have hrB9 : rB < 9 := by
    have := (List.mem_range'_1.mp hrB).2
    omega
  have hcB9 : cB < 9 := by
    have := (List.mem_range'_1.mp hcB).2
    omega
  by_cases hcond : rA < rB ∨ (rB = rA ∧ cA < cB)
  · rw [if_pos hcond] at h7
    rcases List.mem_map.mp h7 with ⟨d, hd, he⟩
    subst he
    rcases List.mem_cons.mp hq with he | hq2
    · subst he; exact ⟨hrA9, hcA9, hd⟩
    · rcases List.mem_cons.mp hq2 with he | hq3
      · subst he; exact ⟨hrB9, hcB9, hd⟩
      · simp at hq3
  · rw [if_neg hcond] at h7
    simp at h7

lemma uniq_queries_shape :
    ∀ q ∈ planQueries rowPlan ++ planQueries colPlan ++ planQueries boxPlan,
      q.1 < 9 ∧ q.2.1 < 9 ∧ q.2.2 ∈ digits := by
  intro q hq
  have hone : ∀ (p : List (List QLit)),
      (∀ cl ∈ p, ∀ ql ∈ cl, (ql : QLit).1.1 < 9 ∧ ql.1.2.1 < 9 ∧ ql.1.2.2 ∈ digits) →
      q ∈ planQueries p → q.1 < 9 ∧ q.2.1 < 9 ∧ q.2.2 ∈ digits := by
    intro p hp hmem
    rcases List.mem_flatMap.mp hmem with ⟨cl, hcl, hm⟩
    rcases List.mem_map.mp hm with ⟨ql, hql, he⟩
    rcases hp cl hcl ql hql with ⟨h1, h2, h3⟩
    rw [← he]
    exact ⟨h1, h2, h3⟩
  rcases List.mem_append.mp hq with hq | hq
  · rcases List.mem_append.mp hq with hq | hq
    · exact hone rowPlan rowPlan_shape hq
    · exact hone colPlan colPlan_shape hq
  · exact hone boxPlan boxPlan_shape hq

set_option maxRecDepth 4000 in
lemma covQ_nodup : (planQueries coveragePlan).Nodup := by
  rw [planQueries_coverage]
  rw [List.nodup_flatMap]
  constructor
  · intro rc hrc
    apply List.Nodup.map
    · intro a b he
      exact congrArg (fun t : Triple => t.2.2) he
    · exact digits_nodup
  · apply List.Pairwise.imp ?_ cells_nodup
    intro a b hne
    intro t hta htb
    rcases List.mem_map.mp hta with ⟨d, _, he1⟩
    rcases List.mem_map.mp htb with ⟨d2, _, he2⟩
    apply hne
    have h1 : a.1 = t.1 := by rw [← he1]
    have h2 : a.2 = t.2.1 := by rw [← he1]
    have h3 : b.1 = t.1 := by rw [← he2]
    have h4 : b.2 = t.2.1 := by rw [← he2]
    exact Prod.ext (h1.trans h3.symm) (h2.trans h4.symm)

set_option maxRecDepth 10000 in
lemma keysAfter_satPlan (g : Grid) :
    keysAfter [] (planQueries (satPlan g)) = satKeys g := by
  have hfilter : (cells.flatMap (fun rc =>
        digits.map (fun d => ((rc.1, rc.2, d) : Triple)))).filter
      (fun q => decide (q ∉ givTriples g)) = covFresh g := by
    rw [filter_flatMap]
    unfold covFresh
    apply flatMap_congr_mem
    intro rc hrc
    obtain ⟨a, b⟩ := rc
    rcases mem_cells.mp hrc with ⟨ha, hb⟩
    rw [List.filter_map]
    refine congrArg (List.map _) (List.filter_congr ?_)
    intro d hd
    simp only [Function.comp_apply, decide_eq_decide]
    constructor
    · intro hnm he
      exact hnm (mem_givTriples.mpr ⟨a, b, ha, hb, by rw [he]⟩)
    · intro hne hmem
      rcases mem_givTriples.mp hmem with ⟨r2, c2, _, _, he⟩
      have hrr : a = r2 := congrArg (fun t : Triple => t.1) he
      have hcc : b = c2 := congrArg (fun t : Triple => t.2.1) he
      have hdd : d = gcell g r2 c2 := congrArg (fun t : Triple => t.2.2) he
      exact hne (by rw [hdd, ← hrr, ← hcc])
  have h1 : keysAfter [] (planQueries (givensPlan g)) = givTriples g := by
    rw [planQueries_givens, keysAfter_of_nodup (givTriples_nodup g)]
    simp
  have h2 : keysAfter (givTriples g) (planQueries coveragePlan) = satKeys g := by
    rw [keysAfter_of_nodup covQ_nodup, planQueries_coverage, hfilter]
    rfl
  have habs : ∀ qs, (∀ q ∈ qs, (q : Triple).1 < 9 ∧ q.2.1 < 9 ∧ q.2.2 ∈ digits) →
      keysAfter (satKeys g) qs = satKeys g := by
    intro qs hqs
    apply keysAfter_all_mem
    intro q hq
    rcases hqs q hq with ⟨hr, hc, hd⟩
    have hqe : q = (q.1, q.2.1, q.2.2) := rfl
    rw [hqe]
    exact mem_satKeys hr hc _ (Or.inl hd)
  unfold satPlan
  rw [planQueries_append, planQueries_append, planQueries_append, planQueries_append]
  rw [keysAfter_append_queries, keysAfter_append_queries, keysAfter_append_queries,
    keysAfter_append_queries]
  rw [h1, h2]
  rw [habs _ (fun q hq => uniq_queries_shape q
    (List.mem_append.mpr (Or.inl (List.mem_append.mpr (Or.inl hq)))))]
  rw [habs _ (fun q hq => uniq_queries_shape q
    (List.mem_append.mpr (Or.inl (List.mem_append.mpr (Or.inr hq)))))]
  exact habs _ (fun q hq => uniq_queries_shape q (List.mem_append.mpr (Or.inr hq)))

lemma satKeys_all_queries (g : Grid) :
    ∀ q ∈ planQueries (satPlan g), q ∈ satKeys g := by
  intro q hq
  have := mem_keysAfter_query hq ([] : List Triple)
  rwa [keysAfter_satPlan] at this

/-- The first `solve_as_sat` encoding on a fresh instance: clause list and
final registry in closed form. -/
lemma satEncode_empty (g : Grid) :
    satEncode (regOf []) g = (clausesOf (satPlan g) (satKeys g), regOf (satKeys g)) := by
  unfold satEncode
  rw [runPlan_regOf, keysAfter_satPlan]

/-- A second encoding of the same grid starting from the registry the
first one left behind: every lookup hits, nothing changes. -/
lemma satEncode_again (g : Grid) :
    satEncode (regOf (satKeys g)) g
      = (clausesOf (satPlan g) (satKeys g), regOf (satKeys g)) := by
  unfold satEncode
  rw [runPlan_regOf, keysAfter_all_mem (satKeys_all_queries g)]

/-! ### C2 and C8: the givens clauses and the registry lifecycle -/

lemma clausesOf_append (p p' : List (List QLit)) (K : List Triple) :
    clausesOf (p ++ p') K = clausesOf p K ++ clausesOf p' K := by
  unfold clausesOf
  exact List.map_append _ p p'

lemma litVal_pos (K : List Triple) (t : Triple) : litVal K (t, false) = (idOf K t : Int) := rfl

lemma litVal_neg (K : List Triple) (t : Triple) : litVal K (t, true) = -(idOf K t : Int) := rfl

lemma regOf_nil : regOf [] = AtomReg.mk [] [] := rfl

lemma clausesOf_givensPlan (g : Grid) :
    clausesOf (givensPlan g) (satKeys g)
      = cells.map (fun rc => [((9 * rc.1 + rc.2 + 1 : Nat) : Int)]) := by
  unfold clausesOf givensPlan
  rw [List.map_map]
  apply List.map_congr_left
  intro rc hrc
  obtain ⟨a, b⟩ := rc
  rcases mem_cells.mp hrc with ⟨ha, hb⟩
  show [litVal (satKeys g) ((a, b, gcell g a b), false)] = _
  rw [litVal_pos, idOf_satKeys_giv g ha hb]

/-- C2 amended: the "constraints given by the initial state" loop emits a
unit clause for every one of the 81 cells, blank or not: the clause list
of `solve_as_sat` starts with the 81 unit clauses `[1], [2], ..., [81]`
(cell `(r, c)` in row-major order getting atom `9r + c + 1`), and the
registry decodes atom `9r + c + 1` to `(r, c, grid[r][c])` — for a blank
cell this is the triple with digit `0`, not an omitted clause. -/
theorem givens_unit_clause_every_cell (g : Grid) :
    ∃ rest, (satEncode (regOf []) g).1
        = cells.map (fun rc => [((9 * rc.1 + rc.2 + 1 : Nat) : Int)]) ++ rest
    ∧ ∀ r < 9, ∀ c < 9,
        dictLookup ((satEncode (regOf []) g).2).id_atom (9 * r + c + 1)
          = some (r, c, gcell g r c) := by
  have h := satEncode_empty g
  have h1 : (satEncode (regOf []) g).1 = clausesOf (satPlan g) (satKeys g) :=
    congrArg Prod.fst h
  have h2 : (satEncode (regOf []) g).2 = regOf (satKeys g) :=
    congrArg Prod.snd h
  refine ⟨clausesOf (coveragePlan ++ rowPlan ++ colPlan ++ boxPlan) (satKeys g), ?_, ?_⟩
  · rw [h1]
    unfold satPlan
    rw [show givensPlan g ++ coveragePlan ++ rowPlan ++ colPlan ++ boxPlan
        = givensPlan g ++ (coveragePlan ++ rowPlan ++ colPlan ++ boxPlan) by
      simp [List.append_assoc]]
    rw [clausesOf_append, clausesOf_givensPlan]
  · intro r hr c hc
    rw [h2]
    have hpos : posOf (satKeys g) (r, c, gcell g r c) = 9 * r + c := by
      have := idOf_satKeys_giv g hr hc
      unfold idOf at this
      omega
    rw [show 9 * r + c + 1 = (9 * r + c) + 1 by omega, dictLookup_regOf_snd, ← hpos]
    exact get?_posOf (mem_givTriples.mpr ⟨r, c, hr, hc, rfl⟩ |>
      fun hm => List.mem_append.mpr (Or.inl hm))

/-- Witness for the amended C2 at the all-blank grid. -/
theorem givens_unit_clause_every_cell_witness :
    ∃ rest, (satEncode (regOf []) zeroGrid).1
        = cells.map (fun rc => [((9 * rc.1 + rc.2 + 1 : Nat) : Int)]) ++ rest
    ∧ ∀ r < 9, ∀ c < 9,
        dictLookup ((satEncode (regOf []) zeroGrid).2).id_atom (9 * r + c + 1)
          = some (r, c, gcell zeroGrid r c) :=
  givens_unit_clause_every_cell zeroGrid

set_option maxRecDepth 4000 in
/-- C2 counterexample: on the all-blank grid the claim "blank cells get
no unit clause" fails.  The very first clause `solve_as_sat` hands the
solver is the unit clause `[1]`, atom `1` decodes to `(0, 0, 0)`, and
cell `(0, 0)` is blank. -/
theorem givens_blank_cell_unit_clause_cex :
    gcell zeroGrid 0 0 = 0
    ∧ (satEncode (AtomReg.mk [] []) zeroGrid).1.head? = some [(1 : Int)]
    ∧ dictLookup ((satEncode (AtomReg.mk [] []) zeroGrid).2).id_atom 1
        = some ((0 : Nat), (0 : Nat), (0 : Int)) := by
  have h := satEncode_empty zeroGrid
  have h1 : (satEncode (regOf []) zeroGrid).1
      = clausesOf (satPlan zeroGrid) (satKeys zeroGrid) := congrArg Prod.fst h
  have h2 : (satEncode (regOf []) zeroGrid).2 = regOf (satKeys zeroGrid) :=
    congrArg Prod.snd h
  refine ⟨by decide, ?_, ?_⟩
  · rw [← regOf_nil, h1]
    decide
  · rw [← regOf_nil, h2]
    rw [show (1 : Nat) = 0 + 1 by omega, dictLookup_regOf_snd]
    decide

lemma pair_state_reg (o : Option Grid) (gr : Grid) (r : AtomReg) (so : Option Grid) (b : Bool) :
    ((o, SudokuState.mk gr r so b) : Option Grid × SudokuState).2.reg = r := rfl

lemma solveAsSat_reg (st : SudokuState) (o : Option (List Int)) :
    (solveAsSat st o).2.reg = (satEncode st.reg st.grid).2 := by
  cases o with
  | none =>
      exact (congrArg (fun p => p.2.reg) (solveAsSat_none_eq st)).trans
        (pair_state_reg none st.grid ((satEncode st.reg st.grid).2) none false)
  | some m =>
      exact (congrArg (fun p => p.2.reg) (solveAsSat_some_eq st m)).trans
        (pair_state_reg _ st.grid ((satEncode st.reg st.grid).2) _ true)

lemma solveAsSat_grid (st : SudokuState) (o : Option (List Int)) :
    (solveAsSat st o).2.grid = st.grid := by
  cases o with
  | none =>
      exact (congrArg (fun p => p.2.grid) (solveAsSat_none_eq st)).trans
        (pair_state_grid none st.grid ((satEncode st.reg st.grid).2) none false)
  | some m =>
      exact (congrArg (fun p => p.2.grid) (solveAsSat_some_eq st m)).trans
        (pair_state_grid _ st.grid ((satEncode st.reg st.grid).2) _ true)

/-- C8 amended: the registry is created once in `__init__` and is *not*
reset by `solve_as_sat`: after a first call on a fresh instance the
registry holds the key list `satKeys g`, and a second call starts from
that same registry, finds every queried triple already present, reuses
the stored identifiers and leaves the registry unchanged. -/
theorem solveAsSat_registry_persists (g : Grid) (o₁ o₂ : Option (List Int)) :
    (solveAsSat (SudokuState.mk g (AtomReg.mk [] []) none false) o₁).2.reg
        = regOf (satKeys g)
    ∧ (solveAsSat ((solveAsSat (SudokuState.mk g (AtomReg.mk [] []) none false) o₁).2) o₂).2.reg
        = regOf (satKeys g) := by
  have hst : (solveAsSat (SudokuState.mk g (AtomReg.mk [] []) none false) o₁).2.reg
      = regOf (satKeys g) := by
    rw [solveAsSat_reg]
    show (satEncode (regOf []) g).2 = _
    exact congrArg Prod.snd (satEncode_empty g)
  refine ⟨hst, ?_⟩
  rw [solveAsSat_reg, solveAsSat_grid, hst]
  show (satEncode (regOf (satKeys g)) g).2 = _
  exact congrArg Prod.snd (satEncode_again g)

set_option maxRecDepth 2000 in
/-- C8 counterexample: the claim "each invocation of `solve_as_sat` uses
a fresh, initially empty atom registry" fails.  After one call on the
all-blank grid the registry is non-empty, and the second call's very
first lookup (`__atom(0, 0, 0)`) is a memoised hit returning the
identifier `1` allocated by the first call, with the registry unchanged. -/
theorem registry_not_fresh_cex :
    (solveAsSat (SudokuState.mk zeroGrid (AtomReg.mk [] []) none false) none).2.reg.atom_id ≠ []
    ∧ atom (solveAsSat (SudokuState.mk zeroGrid (AtomReg.mk [] []) none false) none).2.reg
        ((0 : Nat), (0 : Nat), (0 : Int))
      = (1, (solveAsSat (SudokuState.mk zeroGrid (AtomReg.mk [] []) none false) none).2.reg) := by
  have hst := (solveAsSat_registry_persists zeroGrid none none).1
  constructor
  · rw [hst]
    intro hc
    have hlen := congrArg List.length hc
    rw [regOf_atom_id_length] at hlen
    have h81 : (satKeys zeroGrid).length = 81 + (covFresh zeroGrid).length := by
      unfold satKeys
      rw [List.length_append, givTriples_length]
    rw [h81] at hlen
    simp only [List.length_nil] at hlen
    omega
  · rw [hst]
    have hmem : ((0, 0, 0) : Triple) ∈ satKeys zeroGrid := by
      have hz : gcell zeroGrid 0 0 = 0 := by decide
      have := @mem_satKeys zeroGrid 0 0 (by omega) (by omega) 0 (Or.inr hz.symm)
      exact this
    rw [atom_regOf, if_pos hmem]
    have hz : gcell zeroGrid 0 0 = 0 := by decide
    have hid := @idOf_satKeys_giv zeroGrid 0 0 (by omega) (by omega)
    rw [hz] at hid
    rw [hid]

/-! ### Decoder machinery -/

lemma shape9_setCell {g : Grid} (hs : shape9 g) (r c : Nat) (n : Int) :
    shape9 (setCell g r c n) := by
  rcases hs with ⟨h1, h2⟩
  constructor
  · rw [setCell, List.length_set, h1]
  · intro row hrow
    by_cases hr : r < g.length
    · rcases List.mem_or_eq_of_mem_set hrow with hm | he
      · exact h2 row hm
      · subst he
        rw [List.length_set]
        exact h2 _ (row_mem hr)
    · have hge : g.length ≤ r := by omega
      rw [show setCell g r c n = g from List.set_eq_of_length_le hge] at hrow
      exact h2 row hrow

lemma gcell_setCell {g : Grid} (hs : shape9 g) {i j : Nat} (hi : i < 9)
    (hj : j < 9) (n : Int) (r c : Nat) :
    gcell (setCell g i j n) r c = if i = r ∧ j = c then n else gcell g r c := by
  have hlen := hs.1
  have hrow : (g.getD i []).length = 9 := hs.2 _ (row_mem (by omega))
  have houter : (setCell g i j n).getD r []
      = if i = r then (g.getD i []).set j n else g.getD r [] := by
    unfold setCell
    rw [List.getD_eq_getElem?_getD, List.getElem?_set]
    by_cases h1 : i = r
    · rw [if_pos h1, if_pos (by omega)]
      rw [if_pos h1]
      rfl
    · rw [if_neg h1, ← List.getD_eq_getElem?_getD]
      rw [if_neg h1]
  show ((setCell g i j n).getD r []).getD c 0 = _
  rw [houter]
  by_cases h1 : i = r
  · rw [if_pos h1]
    subst h1
    rw [List.getD_eq_getElem?_getD, List.getElem?_set]
    by_cases h2 : j = c
    · rw [if_pos h2, if_pos (by omega), if_pos ⟨rfl, h2⟩]
      rfl
    · rw [if_neg h2, if_neg (fun hh => h2 hh.2), ← List.getD_eq_getElem?_getD]
      rfl
  · rw [if_neg h1, if_neg (fun hh => h1 hh.1)]
    rfl

lemma writeList_nil (g : Grid) : writeList [] g = g := rfl

lemma writeList_cons (t : Triple) (l : List Triple) (g : Grid) :
    writeList (t :: l) g = writeList l (setCell g t.1 t.2.1 t.2.2) := rfl

lemma shape9_writeList {l : List Triple} {g : Grid} (hs : shape9 g) :
    shape9 (writeList l g) := by
  induction l generalizing g with
  | nil => exact hs
  | cons t rest ih =>
    rw [writeList_cons]
    exact ih (shape9_setCell hs _ _ _)

lemma lastVal_foldl_acc (l : List Triple) (r c : Nat) (acc : Option Int) :
    l.foldl (fun a t => if t.1 = r ∧ t.2.1 = c then some t.2.2 else a) acc
      = (lastVal l r c).elim acc some := by
  induction l generalizing acc with
  | nil => rfl
  | cons t rest ih =>
    show List.foldl _ (if t.1 = r ∧ t.2.1 = c then some t.2.2 else acc) rest = _
    rw [ih]
    have hcons : lastVal (t :: rest) r c
        = (lastVal rest r c).elim (if t.1 = r ∧ t.2.1 = c then some t.2.2 else none) some := by
      show List.foldl _ (if t.1 = r ∧ t.2.1 = c then some t.2.2 else none) rest = _
      rw [ih]
    rw [hcons]
    cases h : lastVal rest r c with
    | none =>
        by_cases ht : t.1 = r ∧ t.2.1 = c
        · rw [if_pos ht, if_pos ht]
          rfl
        · rw [if_neg ht, if_neg ht]
          rfl
    | some v => rfl

lemma lastVal_cons (t : Triple) (l : List Triple) (r c : Nat) :
    lastVal (t :: l) r c
      = (lastVal l r c).elim (if t.1 = r ∧ t.2.1 = c then some t.2.2 else none) some := by
  show List.foldl _ (if t.1 = r ∧ t.2.1 = c then some t.2.2 else none) l = _
  rw [lastVal_foldl_acc]

lemma lastVal_append (l₁ l₂ : List Triple) (r c : Nat) :
    lastVal (l₁ ++ l₂) r c = (lastVal l₂ r c).elim (lastVal l₁ r c) some := by
  show List.foldl _ none (l₁ ++ l₂) = _
  rw [List.foldl_append]
  have h1 : List.foldl (fun (a : Option Int) (t : Triple) =>
      if t.1 = r ∧ t.2.1 = c then some t.2.2 else a) none l₁ = lastVal l₁ r c := rfl
  rw [h1, lastVal_foldl_acc]

lemma lastVal_none_iff (l : List Triple) (r c : Nat) :
    lastVal l r c = none ↔ ∀ t ∈ l, ¬(t.1 = r ∧ t.2.1 = c) := by
  induction l with
  | nil => simp [lastVal]
  | cons t rest ih =>
    rw [lastVal_cons]
    cases h : lastVal rest r c with
    | some v =>
        simp only [Option.elim]
        constructor
        · intro hc; exact absurd hc (by simp)
        · intro hall
          have := (ih.mpr (fun u hu => hall u (List.mem_cons_of_mem _ hu)))
          rw [h] at this
          exact absurd this (by simp)
    | none =>
        simp only [Option.elim]
        constructor
        · intro hc
          intro u hu
          rcases List.mem_cons.mp hu with he | hu2
          · subst he
            intro hm
            rw [if_pos hm] at hc
            exact Option.noConfusion hc
          · exact (ih.mp h) u hu2
        · intro hall
          rw [if_neg (hall t (List.mem_cons_self t rest))]

lemma lastVal_some_mem {l : List Triple} {r c : Nat} {v : Int}
    (h : lastVal l r c = some v) : ∃ t ∈ l, t.1 = r ∧ t.2.1 = c ∧ t.2.2 = v := by
  induction l with
  | nil => simp [lastVal] at h
  | cons t rest ih =>
    rw [lastVal_cons] at h
    cases h2 : lastVal rest r c with
    | some w =>
        rw [h2] at h
        have hw : w = v := by simpa using h
        subst hw
        rcases ih h2 with ⟨u, hu, h3⟩
        exact ⟨u, List.mem_cons_of_mem _ hu, h3⟩
    | none =>
        rw [h2] at h
        simp only [Option.elim] at h
        by_cases ht : t.1 = r ∧ t.2.1 = c
        · rw [if_pos ht] at h
          have hv : t.2.2 = v := by simpa using h
          exact ⟨t, List.mem_cons_self t rest, ht.1, ht.2, hv⟩
        · rw [if_neg ht] at h
          exact absurd h (by simp)

lemma writeList_cell (l : List Triple) (g : Grid) (hs : shape9 g)
    (hl : ∀ t ∈ l, t.1 < 9 ∧ t.2.1 < 9) (r c : Nat) :
    gcell (writeList l g) r c = (lastVal l r c).elim (gcell g r c) id := by
  induction l generalizing g with
  | nil => rfl
  | cons t rest ih =>
    rw [writeList_cons, lastVal_cons]
    have hb := hl t (List.mem_cons_self t rest)
    rw [ih (setCell g t.1 t.2.1 t.2.2) (shape9_setCell hs _ _ _)
      (fun u hu => hl u (List.mem_cons_of_mem _ hu))]
    rw [gcell_setCell hs hb.1 hb.2]
    cases h : lastVal rest r c with
    | some v => rfl
    | none =>
        by_cases ht : t.1 = r ∧ t.2.1 = c
        · rw [if_pos ht, if_pos ht]
          rfl
        · rw [if_neg ht, if_neg ht]
          rfl

lemma filterMap_congr_mem {α β : Type} {l : List α} {f g : α → Option β}
    (h : ∀ a ∈ l, f a = g a) : l.filterMap f = l.filterMap g :=
  List.filterMap_congr h

lemma mem_selFrom {off : Nat} {l : List Triple} {f : Nat → Bool} {t : Triple} :
    t ∈ selFrom off l f
      ↔ ∃ k, k < l.length ∧ f (off + k + 1) = true ∧ l.get? k = some t := by
  unfold selFrom
  rw [List.mem_filterMap]
  constructor
  · rintro ⟨k, hk, hf⟩
    by_cases hfk : f (off + k + 1)
    · rw [if_pos hfk] at hf
      exact ⟨k, List.mem_range.mp hk, hfk, hf⟩
    · rw [if_neg hfk] at hf
      exact absurd hf (by simp)
  · rintro ⟨k, hk, hfk, hget⟩
    exact ⟨k, List.mem_range.mpr hk, by rw [if_pos hfk]; exact hget⟩

lemma selFrom_subset {off : Nat} {l : List Triple} {f : Nat → Bool} {t : Triple}
    (h : t ∈ selFrom off l f) : t ∈ l := by
  rcases mem_selFrom.mp h with ⟨k, _, _, hget⟩
  exact List.get?_mem hget

lemma mem_selFrom_iff {off : Nat} {l : List Triple} {f : Nat → Bool} {t : Triple}
    (hmem : t ∈ l) (hnd : l.Nodup) :
    t ∈ selFrom off l f ↔ f (off + posOf l t + 1) = true := by
  constructor
  · intro h
    rcases mem_selFrom.mp h with ⟨k, hk, hf, hget⟩
    have hk2 : k = posOf l t :=
      List.get?_inj hk hnd (by rw [hget, get?_posOf hmem])
    rw [← hk2]
    exact hf
  · intro hf
    exact mem_selFrom.mpr ⟨posOf l t, posOf_lt_length hmem, hf, get?_posOf hmem⟩

lemma selFrom_append (off : Nat) (A B : List Triple) (f : Nat → Bool) :
    selFrom off (A ++ B) f = selFrom off A f ++ selFrom (off + A.length) B f := by
  unfold selFrom
  rw [List.length_append, List.range_add, List.filterMap_append, List.filterMap_map]
  congr 1
  · apply filterMap_congr_mem
    intro k hk
    have hk9 : k < A.length := List.mem_range.mp hk
    rw [List.get?_eq_getElem?, List.get?_eq_getElem?, List.getElem?_append_left hk9]
  · apply filterMap_congr_mem
    intro k hk
    show (if f (off + (A.length + k) + 1) then (A ++ B).get? (A.length + k) else none) = _
    rw [show off + (A.length + k) + 1 = off + A.length + k + 1 by omega]
    rw [List.get?_eq_getElem?, List.getElem?_append_right (by omega),
      show A.length + k - A.length = k by omega, ← List.get?_eq_getElem?]

lemma decode_aux (K : List Triple) (f : Nat → Bool) :
    ∀ (n lo : Nat) (sol : Grid), lo + n ≤ K.length →
    ((List.range' (lo + 1) n).map (fun i => if f i then (i : Int) else -(i : Int))).foldl
        (fun s (v : Int) =>
          if 0 < v then
            match dictLookup (regOf K).id_atom v.natAbs with
            | some (r, c, m) => setCell s r c m
            | none => s
          else s) sol
      = writeList ((List.range' lo n).filterMap
          (fun k => if f (k + 1) then K.get? k else none)) sol := by
  intro n
  induction n with
  | zero =>
    intro lo sol _
    rfl
  | succ m ih =>
    intro lo sol hle
    have hlo : lo < K.length := by omega
    obtain ⟨t, hget⟩ : ∃ t, K.get? lo = some t :=
      ⟨K.get ⟨lo, hlo⟩, List.get?_eq_get hlo⟩
    rw [List.range'_succ, List.range'_succ, List.map_cons, List.foldl_cons,
      List.filterMap_cons]
    by_cases hf : f (lo + 1)
    · rw [if_pos hf, if_pos hf, hget]
      have hstep : (if (0 : Int) < ((lo + 1 : Nat) : Int) then
          match dictLookup (regOf K).id_atom ((lo + 1 : Nat) : Int).natAbs with
          | some (r, c, m) => setCell sol r c m
          | none => sol
        else sol) = setCell sol t.1 t.2.1 t.2.2 := by
        rw [if_pos (by omega), show ((lo + 1 : Nat) : Int).natAbs = lo + 1 by omega]
        rw [show (lo + 1 : Nat) = lo + 1 from rfl, dictLookup_regOf_snd, hget]
      rw [hstep]
      show _ = writeList (t :: _) sol
      rw [writeList_cons]
      exact ih (lo + 1) (setCell sol t.1 t.2.1 t.2.2) (by omega)
    · rw [if_neg hf, if_neg hf]
      have hstep : (if (0 : Int) < -((lo + 1 : Nat) : Int) then
          match dictLookup (regOf K).id_atom (-((lo + 1 : Nat) : Int)).natAbs with
          | some (r, c, m) => setCell sol r c m
          | none => sol
        else sol) = sol := by
        rw [if_neg (by omega)]
      rw [hstep]
      exact ih (lo + 1) sol (by omega)

lemma decodeModel_eq_writeList (K : List Triple) (f : Nat → Bool) (g : Grid) :
    decodeModel (regOf K) (sortedModel f K.length) g = writeList (selFrom 0 K f) g := by
  unfold decodeModel sortedModel selFrom
  have h := decode_aux K f K.length 0 g (by omega)
  rw [show (0 + 1 : Nat) = 1 from rfl] at h
  rw [h, List.range_eq_range']
  congr 1
  apply filterMap_congr_mem
  intro k _
  rw [show 0 + k + 1 = k + 1 by omega]

/-! ### Clause templates of each family -/

lemma mem_givensPlan {g : Grid} {cl : List QLit} :
    cl ∈ givensPlan g ↔ ∃ r c, r < 9 ∧ c < 9 ∧ cl = [(((r, c, gcell g r c) : Triple), false)] := by
  unfold givensPlan
  constructor
  · intro h
    rcases List.mem_map.mp h with ⟨rc, hrc, he⟩
    obtain ⟨a, b⟩ := rc
    rcases mem_cells.mp hrc with ⟨ha, hb⟩
    exact ⟨a, b, ha, hb, he.symm⟩
  · rintro ⟨r, c, hr, hc, he⟩
    exact List.mem_map.mpr ⟨(r, c), mem_cells.mpr ⟨hr, hc⟩, he.symm⟩

lemma mem_coveragePlan {cl : List QLit} :
    cl ∈ coveragePlan ↔ ∃ r c, r < 9 ∧ c < 9
      ∧ cl = digits.map (fun d => (((r, c, d) : Triple), false)) := by
  unfold coveragePlan
  constructor
  · intro h
    rcases List.mem_map.mp h with ⟨rc, hrc, he⟩
    obtain ⟨a, b⟩ := rc
    rcases mem_cells.mp hrc with ⟨ha, hb⟩
    exact ⟨a, b, ha, hb, he.symm⟩
  · rintro ⟨r, c, hr, hc, he⟩
    exact List.mem_map.mpr ⟨(r, c), mem_cells.mpr ⟨hr, hc⟩, he.symm⟩

lemma mem_rowPlan {cl : List QLit} :
    cl ∈ rowPlan ↔ ∃ r cA cB d, r < 9 ∧ cA < cB ∧ cB < 9 ∧ d ∈ digits
      ∧ cl = [(((r, cA, d) : Triple), true), (((r, cB, d) : Triple), true)] := by
  unfold rowPlan
  constructor
  · intro h
    rcases List.mem_flatMap.mp h with ⟨row, hrow, h2⟩
    rcases List.mem_flatMap.mp h2 with ⟨cA, hcA, h3⟩
    rcases List.mem_flatMap.mp h3 with ⟨cB, hcB, h4⟩
    rcases List.mem_map.mp h4 with ⟨d, hd, he⟩
    have h5 := List.mem_range'_1.mp hcB
    exact ⟨row, cA, cB, d, List.mem_range.mp hrow, by omega,
      by have := List.mem_range.mp hcA; omega, hd, he.symm⟩
  · rintro ⟨r, cA, cB, d, hr, hAB, hB, hd, he⟩
    refine List.mem_flatMap.mpr ⟨r, List.mem_range.mpr hr, ?_⟩
    refine List.mem_flatMap.mpr ⟨cA, List.mem_range.mpr (by omega), ?_⟩
    refine List.mem_flatMap.mpr ⟨cB, List.mem_range'_1.mpr ⟨by omega, by omega⟩, ?_⟩
    exact List.mem_map.mpr ⟨d, hd, he.symm⟩

lemma mem_colPlan {cl : List QLit} :
    cl ∈ colPlan ↔ ∃ c rA rB d, c < 9 ∧ rA < rB ∧ rB < 9 ∧ d ∈ digits
      ∧ cl = [(((rA, c, d) : Triple), true), (((rB, c, d) : Triple), true)] := by
  unfold colPlan
  constructor
  · intro h
    rcases List.mem_flatMap.mp h with ⟨col, hcol, h2⟩
    rcases List.mem_flatMap.mp h2 with ⟨rA, hrA, h3⟩
    rcases List.mem_flatMap.mp h3 with ⟨rB, hrB, h4⟩
    rcases List.mem_map.mp h4 with ⟨d, hd, he⟩
    have h5 := List.mem_range'_1.mp hrB
    exact ⟨col, rA, rB, d, List.mem_range.mp hcol, by omega,
      by have := List.mem_range.mp hrA; omega, hd, he.symm⟩
  · rintro ⟨c, rA, rB, d, hc, hAB, hB, hd, he⟩
    refine List.mem_flatMap.mpr ⟨c, List.mem_range.mpr hc, ?_⟩
    refine List.mem_flatMap.mpr ⟨rA, List.mem_range.mpr (by omega), ?_⟩
    refine List.mem_flatMap.mpr ⟨rB, List.mem_range'_1.mpr ⟨by omega, by omega⟩, ?_⟩
    exact List.mem_map.mpr ⟨d, hd, he.symm⟩

lemma mem_boxPlan {cl : List QLit} :
    cl ∈ boxPlan ↔ ∃ bi bj rA cA rB cB d, bi < 3 ∧ bj < 3
      ∧ (3 * bi ≤ rA ∧ rA < 3 * bi + 3) ∧ (3 * bj ≤ cA ∧ cA < 3 * bj + 3)
      ∧ (3 * bi ≤ rB ∧ rB < 3 * bi + 3) ∧ (3 * bj ≤ cB ∧ cB < 3 * bj + 3)
      ∧ (rA < rB ∨ (rB = rA ∧ cA < cB)) ∧ d ∈ digits
      ∧ cl = [(((rA, cA, d) : Triple), true), (((rB, cB, d) : Triple), true)] := by
  unfold boxPlan
  constructor
  · intro h
    rcases List.mem_flatMap.mp h with ⟨bi, hbi, h2⟩
    rcases List.mem_flatMap.mp h2 with ⟨bj, hbj, h3⟩
    rcases List.mem_flatMap.mp h3 with ⟨rA, hrA, h4⟩
    rcases List.mem_flatMap.mp h4 with ⟨cA, hcA, h5⟩
    rcases List.mem_flatMap.mp h5 with ⟨rB, hrB, h6⟩
    rcases List.mem_flatMap.mp h6 with ⟨cB, hcB, h7⟩
    by_cases hcond : rA < rB ∨ (rB = rA ∧ cA < cB)
    · rw [if_pos hcond] at h7
      rcases List.mem_map.mp h7 with ⟨d, hd, he⟩
      have g1 := List.mem_range'_1.mp hrA
      have g2 := List.mem_range'_1.mp hcA
      have g3 := List.mem_range'_1.mp hrB
      have g4 := List.mem_range'_1.mp hcB
      exact ⟨bi, bj, rA, cA, rB, cB, d, List.mem_range.mp hbi, List.mem_range.mp hbj,
        by omega, by omega, by omega, by omega, hcond, hd, he.symm⟩
    · rw [if_neg hcond] at h7
      simp at h7
  · rintro ⟨bi, bj, rA, cA, rB, cB, d, hbi, hbj, h1, h2, h3, h4, hcond, hd, he⟩
    refine List.mem_flatMap.mpr ⟨bi, List.mem_range.mpr hbi, ?_⟩
    refine List.mem_flatMap.mpr ⟨bj, List.mem_range.mpr hbj, ?_⟩
    refine List.mem_flatMap.mpr ⟨rA, List.mem_range'_1.mpr ⟨by omega, by omega⟩, ?_⟩
    refine List.mem_flatMap.mpr ⟨cA, List.mem_range'_1.mpr ⟨by omega, by omega⟩, ?_⟩
    refine List.mem_flatMap.mpr ⟨rB, List.mem_range'_1.mpr ⟨by omega, by omega⟩, ?_⟩
    refine List.mem_flatMap.mpr ⟨cB, List.mem_range'_1.mpr ⟨by omega, by omega⟩, ?_⟩
    rw [if_pos hcond]
    exact List.mem_map.mpr ⟨d, hd, he.symm⟩

lemma mem_satPlan_parts {g : Grid} {cl : List QLit} :
    cl ∈ satPlan g ↔ cl ∈ givensPlan g ∨ cl ∈ coveragePlan ∨ cl ∈ rowPlan
      ∨ cl ∈ colPlan ∨ cl ∈ boxPlan := by
  unfold satPlan
  simp only [List.mem_append]
  tauto

/-! ### Extracting the semantic content of a satisfying assignment -/

lemma satAssign_template {f : Nat → Bool} {p : List (List QLit)} {K : List Triple}
    (hsat : satAssign f (clausesOf p K)) {cl : List QLit} (hcl : cl ∈ p) :
    ∃ q ∈ cl, litSat f (litVal K q) := by
  rcases hsat _ (List.mem_map.mpr ⟨cl, hcl, rfl⟩) with ⟨l, hl, hs⟩
  rcases List.mem_map.mp hl with ⟨q, hq, he⟩
  exact ⟨q, hq, he ▸ hs⟩

lemma litSat_pos_iff {f : Nat → Bool} {K : List Triple} {t : Triple} :
    litSat f (litVal K (t, false)) ↔ f (idOf K t) = true := by
  rw [litVal_pos]
  unfold litSat
  rw [if_pos (by unfold idOf; omega)]
  have : ((idOf K t : Nat) : Int).natAbs = idOf K t := by omega
  rw [this]

lemma litSat_neg_iff {f : Nat → Bool} {K : List Triple} {t : Triple} :
    litSat f (litVal K (t, true)) ↔ f (idOf K t) = false := by
  rw [litVal_neg]
  unfold litSat
  rw [if_neg (by unfold idOf; omega)]
  have : (-((idOf K t : Nat) : Int)).natAbs = idOf K t := by omega
  rw [this]

lemma sem_giv {g : Grid} {f : Nat → Bool}
    (hsat : satAssign f (clausesOf (satPlan g) (satKeys g)))
    {r c : Nat} (hr : r < 9) (hc : c < 9) :
    f (idOf (satKeys g) (r, c, gcell g r c)) = true := by
  have hcl : [(((r, c, gcell g r c) : Triple), false)] ∈ satPlan g :=
    mem_satPlan_parts.mpr (Or.inl (mem_givensPlan.mpr ⟨r, c, hr, hc, rfl⟩))
  rcases satAssign_template hsat hcl with ⟨q, hq, hs⟩
  have hqe : q = (((r, c, gcell g r c) : Triple), false) := by simpa using hq
  subst hqe
  exact litSat_pos_iff.mp hs

lemma sem_cov {g : Grid} {f : Nat → Bool}
    (hsat : satAssign f (clausesOf (satPlan g) (satKeys g)))
    {r c : Nat} (hr : r < 9) (hc : c < 9) :
    ∃ d ∈ digits, f (idOf (satKeys g) (r, c, d)) = true := by
  have hcl : digits.map (fun d => (((r, c, d) : Triple), false)) ∈ satPlan g :=
    mem_satPlan_parts.mpr (Or.inr (Or.inl (mem_coveragePlan.mpr ⟨r, c, hr, hc, rfl⟩)))
  rcases satAssign_template hsat hcl with ⟨q, hq, hs⟩
  rcases List.mem_map.mp hq with ⟨d, hd, he⟩
  subst he
  exact ⟨d, hd, litSat_pos_iff.mp hs⟩

lemma sem_two {g : Grid} {f : Nat → Bool} {t₁ t₂ : Triple}
    (hsat : satAssign f (clausesOf (satPlan g) (satKeys g)))
    (hcl : [(t₁, true), (t₂, true)] ∈ satPlan g) :
    f (idOf (satKeys g) t₁) = false ∨ f (idOf (satKeys g) t₂) = false := by
  rcases satAssign_template hsat hcl with ⟨q, hq, hs⟩
  rcases List.mem_cons.mp hq with he | hq2
  · subst he
    exact Or.inl (litSat_neg_iff.mp hs)
  · rcases List.mem_cons.mp hq2 with he | hq3
    · subst he
      exact Or.inr (litSat_neg_iff.mp hs)
    · simp at hq3

lemma sem_row {g : Grid} {f : Nat → Bool}
    (hsat : satAssign f (clausesOf (satPlan g) (satKeys g)))
    {r cA cB : Nat} {d : Int} (hr : r < 9) (hAB : cA < cB) (hB : cB < 9) (hd : d ∈ digits) :
    f (idOf (satKeys g) (r, cA, d)) = false ∨ f (idOf (satKeys g) (r, cB, d)) = false :=
  sem_two hsat (mem_satPlan_parts.mpr (Or.inr (Or.inr (Or.inl
    (mem_rowPlan.mpr ⟨r, cA, cB, d, hr, hAB, hB, hd, rfl⟩)))))

lemma sem_col {g : Grid} {f : Nat → Bool}
    (hsat : satAssign f (clausesOf (satPlan g) (satKeys g)))
    {c rA rB : Nat} {d : Int} (hc : c < 9) (hAB : rA < rB) (hB : rB < 9) (hd : d ∈ digits) :
    f (idOf (satKeys g) (rA, c, d)) = false ∨ f (idOf (satKeys g) (rB, c, d)) = false :=
  sem_two hsat (mem_satPlan_parts.mpr (Or.inr (Or.inr (Or.inr (Or.inl
    (mem_colPlan.mpr ⟨c, rA, rB, d, hc, hAB, hB, hd, rfl⟩))))))

lemma sem_box {g : Grid} {f : Nat → Bool}
    (hsat : satAssign f (clausesOf (satPlan g) (satKeys g)))
    {rA cA rB cB : Nat} {d : Int}
    (hA : rA < 9) (hA2 : cA < 9) (hB : rB < 9) (hB2 : cB < 9)
    (hbox : rA / 3 = rB / 3 ∧ cA / 3 = cB / 3)
    (hord : rA < rB ∨ (rB = rA ∧ cA < cB)) (hd : d ∈ digits) :
    f (idOf (satKeys g) (rA, cA, d)) = false ∨ f (idOf (satKeys g) (rB, cB, d)) = false := by
  apply sem_two hsat
  apply mem_satPlan_parts.mpr
  refine Or.inr (Or.inr (Or.inr (Or.inr (mem_boxPlan.mpr
    ⟨rA / 3, cA / 3, rA, cA, rB, cB, d, by omega, by omega, by omega, by omega,
      by omega, by omega, hord, hd, rfl⟩))))

/-- C4: whenever the oracle reports satisfiable — returning, as pysat
does, the sorted model `±1, ±2, ...` of a total assignment `f` over the
formula's variables that satisfies every emitted clause — `solve_as_sat`
returns a grid with no blank cells: each of the 81 cells holds a digit
`1..9` decoded from the true atoms of the model. -/
theorem sat_decode_no_blanks (g : Grid) (hs : shape9 g) (f : Nat → Bool)
    (hsat : satAssign f (satEncode (AtomReg.mk [] []) g).1) :
    ∃ sol, (solveAsSat (SudokuState.mk g (AtomReg.mk [] []) none false)
        (some (sortedModel f (satKeys g).length))).1 = some sol
      ∧ ∀ r < 9, ∀ c < 9, 1 ≤ gcell sol r c ∧ gcell sol r c ≤ 9 := by
  have hcl1 : (satEncode (regOf []) g).1 = clausesOf (satPlan g) (satKeys g) :=
    congrArg Prod.fst (satEncode_empty g)
  rw [← regOf_nil, hcl1] at hsat
  have hout : (solveAsSat (SudokuState.mk g (AtomReg.mk [] []) none false)
      (some (sortedModel f (satKeys g).length))).1
      = some (decodeModel (satEncode (AtomReg.mk [] []) g).2
          (sortedModel f (satKeys g).length) g) :=
    (congrArg Prod.fst (solveAsSat_some_eq _ _)).trans rfl
  have hreg : (satEncode (AtomReg.mk [] []) g).2 = regOf (satKeys g) := by
    rw [← regOf_nil]
    exact congrArg Prod.snd (satEncode_empty g)
  rw [hreg, decodeModel_eq_writeList] at hout
  refine ⟨writeList (selFrom 0 (satKeys g) f) g, hout, ?_⟩
  intro r hr c hc
  have hsplit : selFrom 0 (satKeys g) f
      = selFrom 0 (givTriples g) f ++ selFrom (0 + (givTriples g).length) (covFresh g) f := by
    unfold satKeys
    rw [selFrom_append]
  rw [givTriples_length] at hsplit
  have hbounds : ∀ t ∈ selFrom 0 (satKeys g) f, t.1 < 9 ∧ t.2.1 < 9 := by
    intro t ht
    have hsh := mem_satKeys_shape (selFrom_subset ht)
    exact ⟨hsh.1, hsh.2.1⟩
  rw [writeList_cell _ _ hs hbounds r c, hsplit, lastVal_append]
  cases hSC : lastVal (selFrom (0 + 81) (covFresh g) f) r c with
  | some v =>
    simp only [Option.elim, id]
    rcases lastVal_some_mem hSC with ⟨t, ht, h1, h2, h3⟩
    rcases mem_covFresh.mp (selFrom_subset ht) with ⟨r2, c2, d, _, _, hd, _, he⟩
    rcases mem_digits.mp hd with ⟨hd1, hd2⟩
    have htd : t.2.2 = d := by rw [he]
    omega
  | none =>
    simp only [Option.elim]
    rcases sem_cov hsat hr hc with ⟨d, hd, hfd⟩
    have hdg : d = gcell g r c := by
      by_contra hne
      have hmemC : ((r, c, d) : Triple) ∈ covFresh g :=
        mem_covFresh.mpr ⟨r, c, d, hr, hc, hd, hne, rfl⟩
      have hidf := idOf_satKeys_fresh g hr hc hd hne
      have hin : ((r, c, d) : Triple) ∈ selFrom (0 + 81) (covFresh g) f := by
        rw [mem_selFrom_iff hmemC (covFresh_nodup g)]
        rw [show 0 + 81 + posOf (covFresh g) (r, c, d) + 1
            = idOf (satKeys g) (r, c, d) by omega]
        exact hfd
      exact ((lastVal_none_iff _ r c).mp hSC _ hin) ⟨rfl, rfl⟩
    subst hdg
    have hmemG : ((r, c, gcell g r c) : Triple) ∈ givTriples g :=
      mem_givTriples.mpr ⟨r, c, hr, hc, rfl⟩
    have hidg := idOf_satKeys_giv g hr hc
    have hinG : ((r, c, gcell g r c) : Triple) ∈ selFrom 0 (givTriples g) f := by
      rw [mem_selFrom_iff hmemG (givTriples_nodup g)]
      rw [posOf_givTriples g hr hc]
      rw [show 0 + (9 * r + c) + 1 = idOf (satKeys g) (r, c, gcell g r c) by omega]
      exact hfd
    cases hSG : lastVal (selFrom 0 (givTriples g) f) r c with
    | none =>
      exact absurd (⟨rfl, rfl⟩ : ((r, c, gcell g r c) : Triple).1 = r
          ∧ ((r, c, gcell g r c) : Triple).2.1 = c)
        (((lastVal_none_iff _ r c).mp hSG) _ hinG)
    | some w =>
      simp only [Option.elim, id]
      rcases lastVal_some_mem hSG with ⟨u, hu, hu1, hu2, hu3⟩
      rcases mem_givTriples.mp (selFrom_subset hu) with ⟨r3, c3, _, _, hue⟩
      have he1 : r3 = r := by rw [hue] at hu1; exact hu1
      have he2 : c3 = c := by rw [hue] at hu2; exact hu2
      have he3 : w = gcell g r3 c3 := by rw [hue] at hu3; exact hu3.symm
      rw [he1, he2] at he3
      rcases mem_digits.mp hd with ⟨hd1, hd2⟩
      omega

/-! ### A solved grid induces a satisfying assignment -/

lemma two_get?_count {l : List Int} {v : Int} :
    ∀ {i j : Nat}, i ≠ j → l.get? i = some v → l.get? j = some v → 2 ≤ l.count v := by
  induction l with
  | nil =>
    intro i j _ hi _
    simp at hi
  | cons x xs ih =>
    intro i j hne hi hj
    rw [List.count_cons]
    cases i with
    | zero =>
      cases j with
      | zero => exact absurd rfl hne
      | succ m =>
        have hx : x = v := by simpa using hi
        have hmem : v ∈ xs := List.get?_mem (by simpa using hj)
        have hcount : 0 < List.count v xs := List.count_pos_iff.mpr hmem
        rw [if_pos (by simp [hx])]
        omega
    | succ k =>
      cases j with
      | zero =>
        have hx : x = v := by simpa using hj
        have hmem : v ∈ xs := List.get?_mem (by simpa using hi)
        have hcount : 0 < List.count v xs := List.count_pos_iff.mpr hmem
        rw [if_pos (by simp [hx])]
        omega
      | succ m =>
        have h2 := @ih k m (by omega) (by simpa using hi) (by simpa using hj)
        split <;> omega

lemma completes_entry_digits {g h : Grid} (hcomp : completes g h) (he : entries09 g)
    {r c : Nat} (hr : r < 9) (hc : c < 9) : 1 ≤ gcell h r c ∧ gcell h r c ≤ 9 := by
  rcases hcomp with ⟨_, _, hcells⟩
  rcases hcells r hr c hc with ⟨hkeep, hblank⟩
  by_cases hz : gcell g r c = 0
  · exact hblank hz
  · rcases he r hr c hc with ⟨h0, h9⟩
    have := hkeep hz
    constructor <;> omega

lemma modelFun_eq_true_iff {g h : Grid} {t : Triple} :
    modelFun g h t = true ↔ t.2.2 = gcell g t.1 t.2.1 ∨ t.2.2 = gcell h t.1 t.2.1 := by
  unfold modelFun
  rw [Bool.or_eq_true, beq_iff_eq, beq_iff_eq]

lemma modelFun_digit_entry {g h : Grid} (hcomp : completes g h)
    {r c : Nat} {d : Int} (hr : r < 9) (hc : c < 9) (hd : d ∈ digits)
    (hm : modelFun g h ((r, c, d) : Triple) = true) : gcell h r c = d := by
  rcases modelFun_eq_true_iff.mp hm with he | he
  · have he' : d = gcell g r c := he
    have hnz : gcell g r c ≠ 0 := by
      rcases mem_digits.mp hd with ⟨h1, _⟩
      omega
    rw [(hcomp.2.2 r hr c hc).1 hnz, ← he']
  · exact he.symm

lemma modelAssign_idOf (g h : Grid) {t : Triple} (hmem : t ∈ satKeys g) :
    modelAssign g h (idOf (satKeys g) t) = modelFun g h t := by
  unfold modelAssign idOf
  rw [show posOf (satKeys g) t + 1 = posOf (satKeys g) t + 1 from rfl,
    dictLookup_regOf_snd, get?_posOf hmem]

/-- The assignment induced by a valid completion `h` of `g` satisfies
every clause `solve_as_sat` emits for `g`. -/
lemma modelAssign_sat (g h : Grid) (he : entries09 g)
    (hcomp : completes g h) (hcheck : check_constraints h = true) :
    satAssign (modelAssign g h) (clausesOf (satPlan g) (satKeys g)) := by
  have hdist := (check_constraints_iff_distinct h hcomp.1 hcomp.2.1).mp hcheck
  intro cl' hcl'
  rcases List.mem_map.mp hcl' with ⟨cl, hcl, hce'⟩
  subst hce'
  rcases mem_satPlan_parts.mp hcl with hG | hC | hR | hCo | hB
  · rcases mem_givensPlan.mp hG with ⟨r, c, hr, hc, hce⟩
    subst hce
    refine ⟨litVal (satKeys g) (((r, c, gcell g r c) : Triple), false),
      List.mem_map.mpr ⟨_, List.mem_cons_self _ _, rfl⟩, ?_⟩
    rw [litSat_pos_iff, modelAssign_idOf g h (mem_satKeys hr hc _ (Or.inr rfl))]
    exact modelFun_eq_true_iff.mpr (Or.inl rfl)
  · rcases mem_coveragePlan.mp hC with ⟨r, c, hr, hc, hce⟩
    subst hce
    have hhd : gcell h r c ∈ digits := by
      rcases completes_entry_digits hcomp he hr hc with ⟨h1, h2⟩
      exact mem_digits.mpr ⟨h1, h2⟩
    refine ⟨litVal (satKeys g) (((r, c, gcell h r c) : Triple), false), ?_, ?_⟩
    · exact List.mem_map.mpr ⟨(((r, c, gcell h r c) : Triple), false),
        List.mem_map.mpr ⟨gcell h r c, hhd, rfl⟩, rfl⟩
    · rw [litSat_pos_iff, modelAssign_idOf g h (mem_satKeys hr hc _ (Or.inl hhd))]
      exact modelFun_eq_true_iff.mpr (Or.inr rfl)
  · rcases mem_rowPlan.mp hR with ⟨r, cA, cB, d, hr, hAB, hB, hd, hce⟩
    subst hce
    by_cases h1 : modelFun g h ((r, cA, d) : Triple) = true
    · have hA := modelFun_digit_entry hcomp hr (by omega) hd h1
      have h2 : modelFun g h ((r, cB, d) : Triple) = false := by
        cases hmb : modelFun g h ((r, cB, d) : Triple) with
        | false => rfl
        | true =>
          have hBe := modelFun_digit_entry hcomp hr hB hd hmb
          have hcount := hdist.1 r hr d
            (by rcases mem_digits.mp hd with ⟨x1, x2⟩; omega)
          have h22 := @two_get?_count (rowCells h r) d cA cB (by omega)
            (by rw [rowCells_get? h r cA (by omega), hA])
            (by rw [rowCells_get? h r cB hB, hBe])
          omega
      refine ⟨litVal (satKeys g) (((r, cB, d) : Triple), true),
        List.mem_map.mpr ⟨_, List.mem_cons_of_mem _ (List.mem_cons_self _ _), rfl⟩, ?_⟩
      rw [litSat_neg_iff, modelAssign_idOf g h (mem_satKeys hr hB _ (Or.inl hd))]
      exact h2
    · refine ⟨litVal (satKeys g) (((r, cA, d) : Triple), true),
        List.mem_map.mpr ⟨_, List.mem_cons_self _ _, rfl⟩, ?_⟩
      rw [litSat_neg_iff, modelAssign_idOf g h (mem_satKeys hr (by omega) _ (Or.inl hd))]
      simpa using h1
  · rcases mem_colPlan.mp hCo with ⟨c, rA, rB, d, hc, hAB, hB, hd, hce⟩
    subst hce
    by_cases h1 : modelFun g h ((rA, c, d) : Triple) = true
    · have hA := modelFun_digit_entry hcomp (by omega) hc hd h1
      have h2 : modelFun g h ((rB, c, d) : Triple) = false := by
        cases hmb : modelFun g h ((rB, c, d) : Triple) with
        | false => rfl
        | true =>
          have hBe := modelFun_digit_entry hcomp hB hc hd hmb
          have hcount := hdist.2.1 c hc d
            (by rcases mem_digits.mp hd with ⟨x1, x2⟩; omega)
          have h22 := @two_get?_count (colCells h c) d rA rB (by omega)
            (by rw [colCells_get? h c rA (by omega), hA])
            (by rw [colCells_get? h c rB hB, hBe])
          omega
      refine ⟨litVal (satKeys g) (((rB, c, d) : Triple), true),
        List.mem_map.mpr ⟨_, List.mem_cons_of_mem _ (List.mem_cons_self _ _), rfl⟩, ?_⟩
      rw [litSat_neg_iff, modelAssign_idOf g h (mem_satKeys hB hc _ (Or.inl hd))]
      exact h2
    · refine ⟨litVal (satKeys g) (((rA, c, d) : Triple), true),
        List.mem_map.mpr ⟨_, List.mem_cons_self _ _, rfl⟩, ?_⟩
      rw [litSat_neg_iff, modelAssign_idOf g h (mem_satKeys (by omega) hc _ (Or.inl hd))]
      simpa using h1
  · rcases mem_boxPlan.mp hB with
      ⟨bi, bj, rA, cA, rB, cB, d, hbi, hbj, hA1, hA2, hB1, hB2, hcond, hd, hce⟩
    subst hce
    by_cases h1 : modelFun g h ((rA, cA, d) : Triple) = true
    · have hA := modelFun_digit_entry hcomp (by omega) (by omega) hd h1
      have h2 : modelFun g h ((rB, cB, d) : Triple) = false := by
        cases hmb : modelFun g h ((rB, cB, d) : Triple) with
        | false => rfl
        | true =>
          have hBe := modelFun_digit_entry hcomp (by omega) (by omega) hd hmb
          have hcount := hdist.2.2 (3 * bi + bj) (by omega) d
            (by rcases mem_digits.mp hd with ⟨x1, x2⟩; omega)
          have hgA := @boxCells_get? h (3 * bi + bj)
            (rA - 3 * bi) (cA - 3 * bj) (by omega) (by omega)
          have hgB := @boxCells_get? h (3 * bi + bj)
            (rB - 3 * bi) (cB - 3 * bj) (by omega) (by omega)
          rw [show 3 * ((3 * bi + bj) / 3) + (rA - 3 * bi) = rA by omega,
            show 3 * ((3 * bi + bj) % 3) + (cA - 3 * bj) = cA by omega, hA] at hgA
          rw [show 3 * ((3 * bi + bj) / 3) + (rB - 3 * bi) = rB by omega,
            show 3 * ((3 * bi + bj) % 3) + (cB - 3 * bj) = cB by omega, hBe] at hgB
          have h22 := @two_get?_count (boxCells h (3 * bi + bj)) d
            (3 * (rA - 3 * bi) + (cA - 3 * bj))
            (3 * (rB - 3 * bi) + (cB - 3 * bj)) (by omega) hgA hgB
          omega
      refine ⟨litVal (satKeys g) (((rB, cB, d) : Triple), true),
        List.mem_map.mpr ⟨_, List.mem_cons_of_mem _ (List.mem_cons_self _ _), rfl⟩, ?_⟩
      rw [litSat_neg_iff, modelAssign_idOf g h
        (mem_satKeys (by omega) (by omega) _ (Or.inl hd))]
      exact h2
    · refine ⟨litVal (satKeys g) (((rA, cA, d) : Triple), true),
        List.mem_map.mpr ⟨_, List.mem_cons_self _ _, rfl⟩, ?_⟩
      rw [litSat_neg_iff, modelAssign_idOf g h
        (mem_satKeys (by omega) (by omega) _ (Or.inl hd))]
      simpa using h1

/-- The induced assignment of `fullGrid` (as its own completion)
satisfies the clauses `solve_as_sat` emits for `fullGrid`. -/
lemma fullGrid_modelAssign_sat :
    satAssign (modelAssign fullGrid fullGrid)
      (satEncode (AtomReg.mk [] []) fullGrid).1 := by
  have base := modelAssign_sat fullGrid fullGrid (by unfold entries09; decide)
    (by unfold completes; decide) (by decide)
  have h2 : satAssign (modelAssign fullGrid fullGrid)
      (satEncode (regOf []) fullGrid).1 := by
    rw [congrArg Prod.fst (satEncode_empty fullGrid)]
    exact base
  exact h2

/-- Witness for C4 at the concrete solved grid `fullGrid` and its
induced model. -/
theorem sat_decode_no_blanks_witness :
    shape9 fullGrid
    ∧ ∃ sol, (solveAsSat (SudokuState.mk fullGrid (AtomReg.mk [] []) none false)
        (some (sortedModel (modelAssign fullGrid fullGrid) (satKeys fullGrid).length))).1
          = some sol
      ∧ ∀ r < 9, ∀ c < 9, 1 ≤ gcell sol r c ∧ gcell sol r c ≤ 9 :=
  ⟨by unfold shape9; decide, sat_decode_no_blanks fullGrid (by unfold shape9; decide)
    (modelAssign fullGrid fullGrid) fullGrid_modelAssign_sat⟩


/-! ### CSP search: step lemmas -/

lemma cspSearchF_succ (given : Grid) (fuel : Nat) (grid : Grid) (row col : Nat)
    (acc : Option Grid) :
    cspSearchF given (fuel + 1) grid row col acc =
      if acc.isSome then acc
      else if ¬ check_constraints grid then acc
      else if row = GRID_LEN then some grid
      else if gcell given row col ≠ 0 then
        (if col = GRID_LEN - 1 then cspSearchF given fuel grid (row + 1) 0 acc
         else cspSearchF given fuel grid row (col + 1) acc)
      else
        digits.foldl (fun a d =>
          if col = GRID_LEN - 1 then cspSearchF given fuel (setCell grid row col d) (row + 1) 0 a
          else cspSearchF given fuel (setCell grid row col d) row (col + 1) a) acc := rfl

/-- The `if self.__solution_found: return` guard: once an accumulator holds a
solution, the whole remaining search is skipped. -/
lemma cspSearchF_some (given : Grid) :
    ∀ (fuel : Nat) (grid : Grid) (row col : Nat) (s : Grid),
      cspSearchF given fuel grid row col (some s) = some s := by
  intro fuel
  induction fuel with
  | zero => intro grid row col s; rfl
  | succ n ih =>
    intro grid row col s
    rw [cspSearchF_succ]
    simp

lemma cspSearchF_succ_fail (given : Grid) (fuel : Nat) (grid : Grid) (row col : Nat)
    (hch : check_constraints grid = false) :
    cspSearchF given (fuel + 1) grid row col none = none := by
  rw [cspSearchF_succ, if_neg (by simp), if_pos (by simp [hch])]

lemma cspSearchF_succ_none (given : Grid) (fuel : Nat) (grid : Grid) (row col : Nat)
    (hch : check_constraints grid = true) :
    cspSearchF given (fuel + 1) grid row col none =
      if row = 9 then some grid
      else if gcell given row col ≠ 0 then
        (if col = 8 then cspSearchF given fuel grid (row + 1) 0 none
         else cspSearchF given fuel grid row (col + 1) none)
      else
        digits.foldl (fun a d =>
          if col = 8 then cspSearchF given fuel (setCell grid row col d) (row + 1) 0 a
          else cspSearchF given fuel (setCell grid row col d) row (col + 1) a) none := by
  rw [cspSearchF_succ, if_neg (by simp), if_neg (by simp [hch])]
  rfl

/-! ### Folding over the digit loop: first success wins -/

lemma foldl_skip_some {β : Type} (branch : Int → Option β) (s : β) :
    ∀ ds : List Int,
      ds.foldl (fun a d => a.orElse (fun _ => branch d)) (some s) = some s := by
  intro ds
  induction ds with
  | nil => rfl
  | cons d rest ih => exact ih

lemma foldl_first_some {β : Type} (branch : Int → Option β) :
    ∀ ds : List Int,
      (ds.foldl (fun a d => a.orElse (fun _ => branch d)) none = none
        → ∀ d ∈ ds, branch d = none)
      ∧ (∀ res,
          ds.foldl (fun a d => a.orElse (fun _ => branch d)) none = some res
          → ∃ pre d post, ds = pre ++ d :: post ∧ (∀ e ∈ pre, branch e = none)
              ∧ branch d = some res) := by
  intro ds
  induction ds with
  | nil =>
    refine ⟨fun _ d hd => absurd hd (List.not_mem_nil d), fun res h => by simp at h⟩
  | cons d rest ih =>
    have hstep : ∀ a : Option β,
        (d :: rest).foldl (fun a d => a.orElse (fun _ => branch d)) a
          = rest.foldl (fun a d => a.orElse (fun _ => branch d))
              (a.orElse (fun _ => branch d)) := fun a => rfl
    have hred : ((none : Option β).orElse (fun _ => branch d)) = branch d := rfl
    constructor
    · intro hfold e he
      rw [hstep, hred] at hfold
      rcases List.mem_cons.mp he with he | he
      · subst he
        cases hbd : branch e with
        | some s =>
          rw [hbd, foldl_skip_some] at hfold
          cases hfold
        | none => rfl
      · cases hbd : branch d with
        | some s =>
          rw [hbd, foldl_skip_some] at hfold
          cases hfold
        | none =>
          rw [hbd] at hfold
          exact ih.1 hfold e he
    · intro res hfold
      rw [hstep, hred] at hfold
      cases hbd : branch d with
      | some s =>
        rw [hbd, foldl_skip_some] at hfold
        refine ⟨[], d, rest, rfl, fun e he => absurd he (List.not_mem_nil e), ?_⟩
        rw [hbd, hfold]
      | none =>
        rw [hbd] at hfold
        obtain ⟨pre, d', post, hsplit, hprenone, hbranch⟩ := ih.2 res hfold
        refine ⟨d :: pre, d', post, by rw [hsplit]; rfl, ?_, hbranch⟩
        intro e he
        rcases List.mem_cons.mp he with he | he
        · subst he; exact hbd
        · exact hprenone e he

/-! ### Lexicographic order facts -/

lemma lexLe_refl : ∀ l : List Int, lexLe l l = true := by
  intro l
  induction l with
  | nil => rfl
  | cons a as ih => simp [lexLe, ih]

lemma lexLe_of_firstDiff :
    ∀ (x : List Int) (y : List Int) (i : Nat) (u v : Int),
      (∀ j, j < i → x.get? j = y.get? j) →
      x.get? i = some u → y.get? i = some v → u < v →
      lexLe x y = true := by
  intro x
  induction x with
  | nil =>
    intro y i u v _ hx _ _
    simp at hx
  | cons a as ih =>
    intro y i u v hpre hx hy hlt
    cases y with
    | nil => cases i <;> simp at hy
    | cons b bs =>
      cases i with
      | zero =>
        have ha : a = u := by simpa using hx
        have hb : b = v := by simpa using hy
        show (decide (a < b) || (a == b && lexLe as bs)) = true
        subst ha; subst hb
        simp [hlt]
      | succ n =>
        have h0 := hpre 0 (Nat.succ_pos n)
        have hab : a = b := by simpa using h0
        have htail := ih bs n u v (fun j hj => by simpa using hpre (j + 1) (by omega))
          (by simpa using hx) (by simpa using hy) hlt
        show (decide (a < b) || (a == b && lexLe as bs)) = true
        subst hab
        simp [htail]

/-! ### Count monotonicity and pruning soundness -/

lemma boxCells_length (g : Grid) (b : Nat) : (boxCells g b).length = 9 := rfl

lemma count_le_of_pointwise :
    ∀ (x y : List Int), x.length = y.length →
      (∀ i u v, x.get? i = some u → y.get? i = some v → u ≠ 0 → v = u) →
      ∀ a : Int, a ≠ 0 → x.count a ≤ y.count a := by
  intro x
  induction x with
  | nil => intro y _ _ a _; simp
  | cons p xt ih =>
    intro y hlen hpt a ha
    cases y with
    | nil => simp at hlen
    | cons q yt =>
      have hlen' : xt.length = yt.length := by simpa using hlen
      have hpt' : ∀ i u v, xt.get? i = some u → yt.get? i = some v → u ≠ 0 → v = u :=
        fun i u v hu hv => hpt (i + 1) u v (by simpa using hu) (by simpa using hv)
      have htail := ih yt hlen' hpt' a ha
      rw [List.count_cons, List.count_cons]
      by_cases hpa : p = a
      · have h0 : q = p := hpt 0 p q rfl rfl (by rw [hpa]; exact ha)
        subst hpa; subst h0
        simp
        omega
      · have hne : (p == a) = false := by simp [hpa]
        rw [hne]
        simp
        omega

lemma check_constraints_mono {x h : Grid} (hsx : shape9 x) (hsh : shape9 h)
    (hpt : ∀ r < 9, ∀ c < 9, gcell x r c ≠ 0 → gcell h r c = gcell x r c)
    (hch : check_constraints h = true) : check_constraints x = true := by
  rw [check_constraints_iff_distinct x hsx.1 hsx.2]
  rw [check_constraints_iff_distinct h hsh.1 hsh.2] at hch
  obtain ⟨hrows, hcols, hboxes⟩ := hch
  refine ⟨?_, ?_, ?_⟩
  · intro r hr a ha
    refine le_trans ?_ (hrows r hr a ha)
    apply count_le_of_pointwise _ _ (by simp [rowCells]) ?_ a ha
    intro i u v hu hv hu0
    have hi : i < 9 := by
      by_contra hge
      rw [List.get?_eq_none.mpr (by simp [rowCells]; omega)] at hu
      cases hu
    rw [rowCells_get? x r i hi] at hu
    rw [rowCells_get? h r i hi] at hv
    have hu' : gcell x r i = u := by injection hu
    have hv' : gcell h r i = v := by injection hv
    rw [← hu', ← hv']
    exact hpt r hr i hi (by rw [hu']; exact hu0)
  · intro c hc a ha
    refine le_trans ?_ (hcols c hc a ha)
    apply count_le_of_pointwise _ _ (by simp [colCells]) ?_ a ha
    intro i u v hu hv hu0
    have hi : i < 9 := by
      by_contra hge
      rw [List.get?_eq_none.mpr (by simp [colCells]; omega)] at hu
      cases hu
    rw [colCells_get? x c i hi] at hu
    rw [colCells_get? h c i hi] at hv
    have hu' : gcell x i c = u := by injection hu
    have hv' : gcell h i c = v := by injection hv
    rw [← hu', ← hv']
    exact hpt i hi c hc (by rw [hu']; exact hu0)
  · intro b hb a ha
    refine le_trans ?_ (hboxes b hb a ha)
    apply count_le_of_pointwise _ _ (by rw [boxCells_length, boxCells_length]) ?_ a ha
    intro i u v hu hv hu0
    have hi : i < 9 := by
      by_contra hge
      rw [List.get?_eq_none.mpr (by rw [boxCells_length]; omega)] at hu
      cases hu
    have hidx : i = 3 * (i / 3) + i % 3 := by omega
    have hdr : i / 3 < 3 := by omega
    have hdc : i % 3 < 3 := by omega
    rw [hidx, boxCells_get? x b hdr hdc] at hu
    rw [hidx, boxCells_get? h b hdr hdc] at hv
    have hu' : gcell x (3 * (b / 3) + i / 3) (3 * (b % 3) + i % 3) = u := by injection hu
    have hv' : gcell h (3 * (b / 3) + i / 3) (3 * (b % 3) + i % 3) = v := by injection hv
    rw [← hu', ← hv']
    exact hpt _ (by omega) _ (by omega) (by rw [hu']; exact hu0)

/-! ### Row-major flattening through `cells` -/

lemma grid_as_rows {g : Grid} (hs : shape9 g) :
    g = (List.range 9).map (fun r => g.getD r []) := by
  apply List.ext_get
  · simp [hs.1]
  · intro n hn1 hn2
    have hn : n < 9 := by rw [hs.1] at hn1; exact hn1
    rw [List.get_eq_getElem, List.get_eq_getElem]
    rw [List.getElem_map, List.getElem_range]
    rw [List.getD_eq_getElem g [] hn1]

lemma flatG_cells {g : Grid} (hs : shape9 g) :
    flatG g = cells.map (fun rc => gcell g rc.1 rc.2) := by
  conv_lhs => rw [flatG, grid_as_rows hs]
  rw [List.flatMap_map]
  have hrow : ∀ r < 9, g.getD r [] = (List.range 9).map (fun c => gcell g r c) :=
    fun r hr => (rowCells_eq g hs.1 hs.2 hr).symm
  rw [show cells = (List.range 9).flatMap
      (fun r => (List.range 9).map (fun c => (r, c))) from rfl]
  rw [List.map_flatMap]
  apply flatMap_congr_mem
  intro r hr
  rw [List.map_map]
  exact hrow r (by simpa using hr)

lemma flatG_eq_of_cells {a b : Grid} (hsa : shape9 a) (hsb : shape9 b)
    (h : ∀ r < 9, ∀ c < 9, gcell a r c = gcell b r c) : flatG a = flatG b := by
  rw [flatG_cells hsa, flatG_cells hsb]
  apply List.map_congr_left
  intro rc hrc
  obtain ⟨r, c⟩ := rc
  rw [mem_cells] at hrc
  exact h r hrc.1 c hrc.2

lemma grid_eq_of_cells {a b : Grid} (hsa : shape9 a) (hsb : shape9 b)
    (h : ∀ r < 9, ∀ c < 9, gcell a r c = gcell b r c) : a = b := by
  apply List.ext_get
  · rw [hsa.1, hsb.1]
  · intro n hn1 hn2
    have hn : n < 9 := by rw [hsa.1] at hn1; exact hn1
    have hla : (a.getD n []).length = 9 := hsa.2 _ (row_mem (by omega))
    have hlb : (b.getD n []).length = 9 := hsb.2 _ (row_mem (by omega))
    rw [List.get_eq_getElem, List.get_eq_getElem]
    rw [← List.getD_eq_getElem a [] hn1, ← List.getD_eq_getElem b [] hn2]
    apply List.ext_get
    · rw [hla, hlb]
    · intro c hc1 hc2
      have hc : c < 9 := by rw [hla] at hc1; exact hc1
      have := h n hn c hc
      rw [List.get_eq_getElem, List.get_eq_getElem]
      rw [← List.getD_eq_getElem (a.getD n []) 0 hc1, ← List.getD_eq_getElem (b.getD n []) 0 hc2]
      exact this

lemma cells_get? {r c : Nat} (hr : r < 9) (hc : c < 9) :
    cells.get? (9 * r + c) = some (r, c) := by
  have h1 := posOf_cells r hr c hc
  have h2 := get?_posOf (mem_cells.mpr ⟨hr, hc⟩)
  rw [h1] at h2
  exact h2

lemma flatG_get? {g : Grid} (hs : shape9 g) {r c : Nat} (hr : r < 9) (hc : c < 9) :
    (flatG g).get? (9 * r + c) = some (gcell g r c) := by
  rw [flatG_cells hs, List.get?_eq_getElem?, List.getElem?_map, ← List.get?_eq_getElem?,
    cells_get? hr hc]
  rfl

lemma lexLe_grids_of_diff {a b : Grid} (hsa : shape9 a) (hsb : shape9 b)
    {rd cd : Nat} (hrd : rd < 9) (hcd : cd < 9)
    (hpre : ∀ r < 9, ∀ c < 9, 9 * r + c < 9 * rd + cd → gcell a r c = gcell b r c)
    (hlt : gcell a rd cd < gcell b rd cd) :
    lexLe (flatG a) (flatG b) = true := by
  apply lexLe_of_firstDiff (flatG a) (flatG b) (9 * rd + cd) (gcell a rd cd) (gcell b rd cd)
  · intro j hj
    have hjr : j / 9 < 9 := by omega
    have hjc : j % 9 < 9 := by omega
    have hsplit : 9 * (j / 9) + j % 9 = j := by omega
    rw [← hsplit, flatG_get? hsa hjr hjc, flatG_get? hsb hjr hjc]
    exact congrArg some (hpre (j / 9) hjr (j % 9) hjc (by omega))
  · exact flatG_get? hsa hrd hcd
  · exact flatG_get? hsb hrd hcd
  · exact hlt

/-! ### Branch-set lemmas for the CSP search -/

lemma branch_not_check {given grid : Grid} {pos : Nat} (hsgrid : shape9 grid)
    (hagree : ∀ r < 9, ∀ c < 9, pos ≤ 9 * r + c → gcell grid r c = gcell given r c)
    (hfail : check_constraints grid = false) (h : Grid) :
    ¬ branchSet given grid h pos := by
  rintro ⟨⟨hsh, hag, _⟩, hch⟩
  have hmono : check_constraints grid = true := by
    apply check_constraints_mono hsgrid hsh ?_ hch
    intro r hr c hc hnz
    by_cases hq : 9 * r + c < pos ∨ gcell given r c ≠ 0
    · exact hag r hr c hc hq
    · push_neg at hq
      obtain ⟨hge, h0⟩ := hq
      exact absurd ((hagree r hr c hc (by omega)).trans h0) hnz
  rw [hmono] at hfail
  cases hfail

lemma branch_end_self {given grid : Grid} (hsgrid : shape9 grid)
    (hch : check_constraints grid = true) :
    branchSet given grid grid 81 := by
  refine ⟨⟨hsgrid, fun r hr c hc _ => rfl, fun r hr c hc hq => absurd hq.1 (by omega)⟩, hch⟩

lemma branch_end_eq {given grid h : Grid} (hsgrid : shape9 grid)
    (hb : branchSet given grid h 81) : flatG h = flatG grid :=
  flatG_eq_of_cells hb.1.1 hsgrid (fun r hr c hc => hb.1.2.1 r hr c hc (Or.inl (by omega)))

/-- Advancing past a given cell does not change the branch set. -/
lemma branch_skip {given grid : Grid} {row col : Nat} (hrow : row < 9) (hcol : col < 9)
    (hgiven : gcell given row col ≠ 0) (h : Grid) :
    branchSet given grid h (9 * row + col) ↔ branchSet given grid h (9 * row + col + 1) := by
  unfold branchSet extendsFrom
  constructor
  · rintro ⟨⟨hsh, hag, hbl⟩, hch⟩
    refine ⟨⟨hsh, ?_, ?_⟩, hch⟩
    · intro r hr c hc hq
      rcases hq with hq | hq
      · by_cases he : 9 * r + c = 9 * row + col
        · have : r = row ∧ c = col := by omega
          exact hag r hr c hc (Or.inr (by rw [this.1, this.2]; exact hgiven))
        · exact hag r hr c hc (Or.inl (by omega))
      · exact hag r hr c hc (Or.inr hq)
    · intro r hr c hc hq
      exact hbl r hr c hc ⟨by omega, hq.2⟩
  · rintro ⟨⟨hsh, hag, hbl⟩, hch⟩
    refine ⟨⟨hsh, ?_, ?_⟩, hch⟩
    · intro r hr c hc hq
      rcases hq with hq | hq
      · exact hag r hr c hc (Or.inl (by omega))
      · exact hag r hr c hc (Or.inr hq)
    · intro r hr c hc hq
      by_cases he : 9 * r + c = 9 * row + col
      · have : r = row ∧ c = col := by omega
        rw [this.1, this.2] at hq
        exact absurd hq.2 hgiven
      · exact hbl r hr c hc ⟨by omega, hq.2⟩

/-- At a blank cell the branch set splits as the union, over the digits
`1..9`, of the branch sets of the candidate grids. -/
lemma branch_partition {given grid : Grid} {row col : Nat} (hsgrid : shape9 grid)
    (hrow : row < 9) (hcol : col < 9)
    (hblank : gcell given row col = 0) (h : Grid) :
    branchSet given grid h (9 * row + col) ↔
      ∃ d, (1 ≤ d ∧ d ≤ 9) ∧
        branchSet given (setCell grid row col d) h (9 * row + col + 1) := by
  unfold branchSet extendsFrom
  constructor
  · rintro ⟨⟨hsh, hag, hbl⟩, hch⟩
    refine ⟨gcell h row col, hbl row hrow col hcol ⟨le_refl _, hblank⟩, ⟨⟨hsh, ?_, ?_⟩, hch⟩⟩
    · intro r hr c hc hq
      rw [gcell_setCell hsgrid hrow hcol]
      by_cases he : row = r ∧ col = c
      · rw [if_pos he, ← he.1, ← he.2]
      · rw [if_neg he]
        rcases hq with hq | hq
        · have hne : 9 * r + c ≠ 9 * row + col := by
            intro habs
            exact he ⟨by omega, by omega⟩
          exact hag r hr c hc (Or.inl (by omega))
        · exact hag r hr c hc (Or.inr hq)
    · intro r hr c hc hq
      exact hbl r hr c hc ⟨by omega, hq.2⟩
  · rintro ⟨d, hd, ⟨hsh, hag, hbl⟩, hch⟩
    refine ⟨⟨hsh, ?_, ?_⟩, hch⟩
    · intro r hr c hc hq
      have hne : ¬ (row = r ∧ col = c) := by
        rintro ⟨h1, h2⟩
        subst h1; subst h2
        rcases hq with hq | hq
        · omega
        · exact hq hblank
      have := hag r hr c hc (by rcases hq with hq | hq; exact Or.inl (by omega); exact Or.inr hq)
      rw [gcell_setCell hsgrid hrow hcol, if_neg hne] at this
      exact this
    · intro r hr c hc hq
      by_cases he : 9 * r + c = 9 * row + col
      · have hrc : r = row ∧ c = col := by omega
        rw [hrc.1, hrc.2]
        have := hag row hrow col hcol (Or.inl (by omega))
        rw [gcell_setCell hsgrid hrow hcol, if_pos ⟨rfl, rfl⟩] at this
        rw [this]
        exact hd
      · exact hbl r hr c hc ⟨by omega, hq.2⟩

/-- Any member of a candidate branch carries the chosen digit at the cursor. -/
lemma branch_cell_val {given grid : Grid} {row col : Nat} {d : Int} {h : Grid}
    (hsgrid : shape9 grid) (hrow : row < 9) (hcol : col < 9)
    (hb : branchSet given (setCell grid row col d) h (9 * row + col + 1)) :
    gcell h row col = d := by
  have := hb.1.2.1 row hrow col hcol (Or.inl (by omega))
  rw [gcell_setCell hsgrid hrow hcol, if_pos ⟨rfl, rfl⟩] at this
  exact this

/-! ### The main invariant of `__csp_search` -/

/-- Run on a consistent candidate with the cursor at `(row, col)` and enough
fuel, `__csp_search` returns `None` exactly when the branch set is empty and
otherwise returns its lexicographically least member. -/
lemma cspSearchF_spec (given : Grid) :
    ∀ (fuel row col : Nat) (grid : Grid),
      row ≤ 9 → col < 9 → (row = 9 → col = 0) →
      82 ≤ fuel + (9 * row + col) →
      shape9 grid →
      (∀ r < 9, ∀ c < 9, 9 * row + col ≤ 9 * r + c → gcell grid r c = gcell given r c) →
      ((cspSearchF given fuel grid row col none = none →
          ∀ h, ¬ branchSet given grid h (9 * row + col))
       ∧ (∀ hmin, cspSearchF given fuel grid row col none = some hmin →
          branchSet given grid hmin (9 * row + col)
          ∧ ∀ h, branchSet given grid h (9 * row + col) →
              lexLe (flatG hmin) (flatG h) = true)) := by
  intro fuel
  induction fuel with
  | zero =>
    intro row col grid hrow hcol hrc hfuel _ _
    exfalso
    by_cases h9 : row = 9
    · have := hrc h9
      omega
    · have : row ≤ 8 := by omega
      omega
  | succ fuel ih =>
    intro row col grid hrow hcol hrc hfuel hsgrid hagree
    by_cases hch : check_constraints grid = true
    case neg =>
      have hfail : check_constraints grid = false := by
        cases hcc : check_constraints grid
        · rfl
        · exact absurd hcc hch
      rw [cspSearchF_succ_fail given fuel grid row col hfail]
      exact ⟨fun _ h => branch_not_check hsgrid hagree hfail h,
        fun hmin habs => absurd habs (by simp)⟩
    case pos =>
      rw [cspSearchF_succ_none given fuel grid row col hch]
      by_cases h9 : row = 9
      · have hc0 : col = 0 := hrc h9
        subst h9; subst hc0
        rw [if_pos rfl]
        constructor
        · intro habs
          exact absurd habs (by simp)
        · intro hmin hsome
          have hmg : grid = hmin := Option.some.inj hsome
          subst hmg
          have h81 : 9 * 9 + 0 = 81 := by norm_num
          rw [h81]
          refine ⟨branch_end_self hsgrid hch, ?_⟩
          intro h hb
          rw [← branch_end_eq hsgrid hb]
          exact lexLe_refl _
      · rw [if_neg h9]
        have hrlt : row < 9 := by omega
        obtain ⟨nr, nc, hstep, hnr, hnc, hnrc0, hpos⟩ :
            ∃ nr nc, (∀ (cand : Grid) (a : Option Grid),
                (if col = 8 then cspSearchF given fuel cand (row + 1) 0 a
                 else cspSearchF given fuel cand row (col + 1) a)
                  = cspSearchF given fuel cand nr nc a)
              ∧ nr ≤ 9 ∧ nc < 9 ∧ (nr = 9 → nc = 0)
              ∧ 9 * nr + nc = 9 * row + col + 1 := by
          by_cases hc8 : col = 8
          · exact ⟨row + 1, 0, fun cand a => by rw [if_pos hc8], by omega, by omega,
              fun _ => rfl, by omega⟩
          · exact ⟨row, col + 1, fun cand a => by rw [if_neg hc8], by omega, by omega,
              fun hh => absurd hh h9, by omega⟩
        by_cases hgv : gcell given row col ≠ 0
        · rw [if_pos hgv, hstep grid none]
          have hnext := ih nr nc grid hnr hnc hnrc0 (by omega) hsgrid
            (fun r hr c hc hge => hagree r hr c hc (by omega))
          rw [hpos] at hnext
          obtain ⟨hn, hs⟩ := hnext
          constructor
          · intro hnone h hb
            exact hn hnone h ((branch_skip hrlt hcol hgv h).mp hb)
          · intro hmin hsome
            obtain ⟨hbm, hlex⟩ := hs hmin hsome
            refine ⟨(branch_skip hrlt hcol hgv hmin).mpr hbm, ?_⟩
            intro h hb
            exact hlex h ((branch_skip hrlt hcol hgv h).mp hb)
        · rw [if_neg hgv]
          push_neg at hgv
          have hfun : (fun (a : Option Grid) (d : Int) =>
                if col = 8 then cspSearchF given fuel (setCell grid row col d) (row + 1) 0 a
                else cspSearchF given fuel (setCell grid row col d) row (col + 1) a)
              = fun (a : Option Grid) (d : Int) =>
                a.orElse (fun _ => cspSearchF given fuel (setCell grid row col d) nr nc none) := by
            funext a d
            cases a with
            | none => exact hstep _ none
            | some s => exact (hstep _ (some s)).trans (cspSearchF_some given fuel _ nr nc s)
          rw [hfun]
          have hloop := foldl_first_some
            (fun d => cspSearchF given fuel (setCell grid row col d) nr nc none) digits
          have hspec : ∀ d : Int, 1 ≤ d → d ≤ 9 →
              ((cspSearchF given fuel (setCell grid row col d) nr nc none = none →
                  ∀ h, ¬ branchSet given (setCell grid row col d) h (9 * row + col + 1))
               ∧ (∀ hmin,
                  cspSearchF given fuel (setCell grid row col d) nr nc none = some hmin →
                  branchSet given (setCell grid row col d) hmin (9 * row + col + 1)
                  ∧ ∀ h, branchSet given (setCell grid row col d) h (9 * row + col + 1) →
                      lexLe (flatG hmin) (flatG h) = true)) := by
            intro d _ _
            have hagree' : ∀ r, r < 9 → ∀ c, c < 9 → 9 * nr + nc ≤ 9 * r + c →
                gcell (setCell grid row col d) r c = gcell given r c := by
              intro r hr c hc hge
              rw [gcell_setCell hsgrid hrlt hcol]
              by_cases he : row = r ∧ col = c
              · exfalso
                obtain ⟨h1, h2⟩ := he
                subst h1; subst h2
                omega
              · rw [if_neg he]
                exact hagree r hr c hc (by omega)
            have := ih nr nc (setCell grid row col d) hnr hnc hnrc0 (by omega)
              (shape9_setCell hsgrid row col d) hagree'
            rw [hpos] at this
            exact this
          constructor
          · intro hnone h hb
            obtain ⟨d, hd, hbd⟩ := (branch_partition hsgrid hrlt hcol hgv h).mp hb
            have hdm : d ∈ digits := mem_digits.mpr hd
            exact (hspec d hd.1 hd.2).1 (hloop.1 hnone d hdm) h hbd
          · intro hmin hsome
            obtain ⟨pre, d, post, hsplit, hprenone, hbd⟩ := hloop.2 hmin hsome
            have hdm : d ∈ digits := by
              rw [hsplit]
              exact List.mem_append_right _ (List.mem_cons_self d post)
            have hd : 1 ≤ d ∧ d ≤ 9 := mem_digits.mp hdm
            have hmin_spec := (hspec d hd.1 hd.2).2 hmin hbd
            constructor
            · exact (branch_partition hsgrid hrlt hcol hgv hmin).mpr ⟨d, hd, hmin_spec.1⟩
            · intro h hb
              obtain ⟨d', hd', hbd'⟩ := (branch_partition hsgrid hrlt hcol hgv h).mp hb
              have hdm' : d' ∈ digits := mem_digits.mpr hd'
              rcases lt_trichotomy d' d with hlt | heq | hgt
              · exfalso
                have hsorted : List.Pairwise (· < ·) digits := by decide
                have hpre : d' ∈ pre := by
                  rw [hsplit] at hdm' hsorted
                  rcases List.mem_append.mp hdm' with hm | hm
                  · exact hm
                  · exfalso
                    rcases List.mem_cons.mp hm with hm | hm
                    · omega
                    · have hpp := (List.pairwise_append.mp hsorted).2.1
                      have hdd := (List.pairwise_cons.mp hpp).1 d' hm
                      omega
                exact (hspec d' hd'.1 hd'.2).1 (hprenone d' hpre) h hbd'
              · subst heq
                exact hmin_spec.2 h hbd'
              · have hv1 : gcell hmin row col = d :=
                  branch_cell_val hsgrid hrlt hcol hmin_spec.1
                have hv2 : gcell h row col = d' :=
                  branch_cell_val hsgrid hrlt hcol hbd'
                apply lexLe_grids_of_diff hmin_spec.1.1.1 hbd'.1.1 hrlt hcol
                · intro r hr c hc hlt
                  have hne : ¬ (row = r ∧ col = c) := by
                    rintro ⟨h1, h2⟩
                    subst h1; subst h2
                    omega
                  have e1 := hmin_spec.1.1.2.1 r hr c hc (Or.inl (by omega))
                  have e2 := hbd'.1.2.1 r hr c hc (Or.inl (by omega))
                  rw [gcell_setCell hsgrid hrlt hcol, if_neg hne] at e1 e2
                  rw [e1, e2]
                · rw [hv1, hv2]
                  exact hgt

/-! ### C9: solve_as_csp returns the lexicographically least solution -/

lemma solves_iff_branch0 {given h : Grid} :
    solves given h ↔ branchSet given given h 0 := by
  unfold solves completes branchSet extendsFrom shape9
  constructor
  · rintro ⟨⟨hl, hrl, hcells⟩, hch⟩
    refine ⟨⟨⟨hl, hrl⟩, ?_, ?_⟩, hch⟩
    · intro r hr c hc hq
      rcases hq with hq | hq
      · omega
      · exact (hcells r hr c hc).1 hq
    · intro r hr c hc hq
      exact (hcells r hr c hc).2 hq.2
  · rintro ⟨⟨⟨hl, hrl⟩, hag, hbl⟩, hch⟩
    refine ⟨⟨hl, hrl, ?_⟩, hch⟩
    intro r hr c hc
    exact ⟨fun hnz => hag r hr c hc (Or.inr hnz),
      fun h0 => hbl r hr c hc ⟨Nat.zero_le _, h0⟩⟩

/-- C9: `solve_as_csp` is deterministic (it is a function of the puzzle
alone), and on every solvable 9×9 puzzle it returns a solution that is
lexicographically least in row-major order among all solutions: blank
cells are tried with digits ascending `1..9`, given cells are kept, and
the first complete consistent grid short-circuits all remaining
branches (`cspSearchF_some`). -/
theorem csp_lex_minimal (given : Grid) (hs : shape9 given)
    (hsolv : ∃ h, solves given h) :
    ∃ gmin,
      (solveAsCsp (SudokuState.mk given (AtomReg.mk [] []) none false)).1 = some gmin
      ∧ solves given gmin
      ∧ ∀ h, solves given h → lexLe (flatG gmin) (flatG h) = true := by
  obtain ⟨h0, hh0⟩ := hsolv
  have hout : (solveAsCsp (SudokuState.mk given (AtomReg.mk [] []) none false)).1
      = cspSearchF given 82 given 0 0 none :=
    congrArg Prod.fst (solveAsCsp_eq _)
  have hspec := cspSearchF_spec given 82 0 0 given (by omega) (by omega)
    (fun _ => rfl) (by omega) hs (fun r _ c _ _ => rfl)
  cases hres : cspSearchF given 82 given 0 0 none with
  | none =>
    exfalso
    exact hspec.1 hres h0 (solves_iff_branch0.mp hh0)
  | some gmin =>
    obtain ⟨hbm, hlex⟩ := hspec.2 gmin hres
    refine ⟨gmin, by rw [hout, hres], solves_iff_branch0.mpr hbm, ?_⟩
    intro h hh
    exact hlex h (solves_iff_branch0.mp hh)

theorem csp_lex_minimal_witness :
    shape9 fullGrid ∧ (∃ h, solves fullGrid h) ∧
    ∃ gmin,
      (solveAsCsp (SudokuState.mk fullGrid (AtomReg.mk [] []) none false)).1 = some gmin
      ∧ solves fullGrid gmin
      ∧ ∀ h, solves fullGrid h → lexLe (flatG gmin) (flatG h) = true :=
  ⟨by unfold shape9; decide,
   ⟨fullGrid, by unfold solves completes; decide⟩,
   csp_lex_minimal fullGrid (by unfold shape9; decide)
     ⟨fullGrid, by unfold solves completes; decide⟩⟩

/-! ### C1: each cell carries exactly one true digit atom -/

lemma count_two_get? {l : List Int} {a : Int} :
    2 ≤ l.count a → ∃ i j, i < j ∧ l.get? i = some a ∧ l.get? j = some a := by
  induction l with
  | nil => intro h; simp at h
  | cons x xs ih =>
    intro h
    by_cases hxa : x = a
    · have hcount : (x :: xs).count a = xs.count a + 1 := by
        simp [List.count_cons, hxa]
      rw [hcount] at h
      have hpos : 0 < xs.count a := by omega
      have hmem : a ∈ xs := List.count_pos_iff_mem.mp hpos
      obtain ⟨n, hn⟩ := List.get?_of_mem hmem
      exact ⟨0, n + 1, by omega, by simp [hxa], by simpa using hn⟩
    · have hcount : (x :: xs).count a = xs.count a := by
        simp [List.count_cons, hxa]
      rw [hcount] at h
      obtain ⟨i, j, hij, hgi, hgj⟩ := ih h
      exact ⟨i + 1, j + 1, by omega, by simpa using hgi, by simpa using hgj⟩

/-- Row pigeonhole: the coverage clause gives each of the nine cells of a
row at least one true digit atom, the row clauses make the true digit
sets of distinct cells disjoint, and only nine digits exist — so every
cell has exactly one true digit atom. -/
lemma cell_unique_digit {g : Grid} {f : Nat → Bool}
    (hsat : satAssign f (clausesOf (satPlan g) (satKeys g)))
    {r c : Nat} (hr : r < 9) (hc : c < 9) :
    ∃ d ∈ digits, f (idOf (satKeys g) (r, c, d)) = true
      ∧ ∀ e ∈ digits, f (idOf (satKeys g) (r, c, e)) = true → e = d := by
  classical
  set D : Nat → Finset Int :=
    fun j => (Finset.Icc (1 : Int) 9).filter
      (fun d => f (idOf (satKeys g) (r, j, d)) = true) with hD
  have hmemD : ∀ j d, d ∈ D j ↔
      (1 ≤ d ∧ d ≤ 9) ∧ f (idOf (satKeys g) (r, j, d)) = true := by
    intro j d
    rw [hD]
    simp [Finset.mem_filter, Finset.mem_Icc]
  have hne : ∀ j ∈ Finset.range 9, (D j).Nonempty := by
    intro j hj
    rcases sem_cov hsat hr (Finset.mem_range.mp hj) with ⟨d, hd, hfd⟩
    exact ⟨d, (hmemD j d).mpr ⟨mem_digits.mp hd, hfd⟩⟩
  have hdisj : ∀ i ∈ Finset.range 9, ∀ j ∈ Finset.range 9, i ≠ j →
      Disjoint (D i) (D j) := by
    intro i hi j hj hij
    rw [Finset.disjoint_left]
    intro d hdi hdj
    have h1 := (hmemD i d).mp hdi
    have h2 := (hmemD j d).mp hdj
    have hd : d ∈ digits := mem_digits.mpr h1.1
    rcases Nat.lt_or_ge i j with hlt | hge
    · rcases sem_row hsat hr hlt (Finset.mem_range.mp hj) hd with hf | hf
      · rw [h1.2] at hf; cases hf
      · rw [h2.2] at hf; cases hf
    · have hlt : j < i := by omega
      rcases sem_row hsat hr hlt (Finset.mem_range.mp hi) hd with hf | hf
      · rw [h2.2] at hf; cases hf
      · rw [h1.2] at hf; cases hf
  have hsum : ∑ j in Finset.range 9, (D j).card ≤ 9 := by
    rw [← Finset.card_biUnion hdisj]
    have hsub : (Finset.range 9).biUnion D ⊆ Finset.Icc (1 : Int) 9 := by
      intro d hd
      rcases Finset.mem_biUnion.mp hd with ⟨j, _, hdj⟩
      exact Finset.mem_Icc.mpr ((hmemD j d).mp hdj).1
    calc ((Finset.range 9).biUnion D).card ≤ (Finset.Icc (1 : Int) 9).card :=
          Finset.card_le_card hsub
      _ = 9 := by rw [Int.card_Icc]; rfl
  have hone : ∀ j ∈ Finset.range 9, (D j).card = 1 := by
    intro j hj
    by_contra hne1
    have h2le : 2 ≤ (D j).card := by
      have h1le : 1 ≤ (D j).card := Finset.card_pos.mpr (hne j hj)
      omega
    have hsplit := Finset.sum_eq_sum_diff_singleton_add hj (fun i => (D i).card)
    have hrest : 8 ≤ ∑ i in Finset.range 9 \ {j}, (D i).card := by
      have hcards : ∀ i ∈ Finset.range 9 \ {j}, 1 ≤ (D i).card := by
        intro i hi
        exact Finset.card_pos.mpr (hne i (Finset.mem_sdiff.mp hi).1)
      have hle := Finset.card_nsmul_le_sum (Finset.range 9 \ {j})
        (fun i => (D i).card) 1 hcards
      have hcard : (Finset.range 9 \ {j}).card = 8 := by
        rw [Finset.card_sdiff (Finset.singleton_subset_iff.mpr hj)]
        simp
      rw [hcard] at hle
      simpa using hle
    omega
  have hj1 := hone c (Finset.mem_range.mpr hc)
  rcases Finset.card_eq_one.mp hj1 with ⟨d, hd⟩
  have hdm : d ∈ D c := by rw [hd]; exact Finset.mem_singleton_self d
  have h1 := (hmemD c d).mp hdm
  refine ⟨d, mem_digits.mpr h1.1, h1.2, ?_⟩
  intro e hem hfe
  have hein : e ∈ D c := (hmemD c e).mpr ⟨mem_digits.mp hem, hfe⟩
  rw [hd] at hein
  exact Finset.mem_singleton.mp hein

/-- The value the decoder leaves in cell `(r, c)` is the unique digit
whose atom is true there; in particular a non-blank given is kept. -/
lemma decoded_cell {g : Grid} {f : Nat → Bool} (hs : shape9 g) (he : entries09 g)
    (hsat : satAssign f (clausesOf (satPlan g) (satKeys g)))
    {r c : Nat} (hr : r < 9) (hc : c < 9) :
    (gcell g r c ≠ 0 → gcell (writeList (selFrom 0 (satKeys g) f) g) r c = gcell g r c)
    ∧ gcell (writeList (selFrom 0 (satKeys g) f) g) r c ∈ digits
    ∧ f (idOf (satKeys g) (r, c, gcell (writeList (selFrom 0 (satKeys g) f) g) r c))
        = true := by
  obtain ⟨dstar, hdm, hfd, huniq⟩ := cell_unique_digit hsat hr hc
  have hval : gcell (writeList (selFrom 0 (satKeys g) f) g) r c = dstar := by
    have hsplit : selFrom 0 (satKeys g) f
        = selFrom 0 (givTriples g) f
          ++ selFrom (0 + (givTriples g).length) (covFresh g) f := by
      unfold satKeys
      rw [selFrom_append]
    rw [givTriples_length] at hsplit
    have hbounds : ∀ t ∈ selFrom 0 (satKeys g) f, t.1 < 9 ∧ t.2.1 < 9 := by
      intro t ht
      have hsh := mem_satKeys_shape (selFrom_subset ht)
      exact ⟨hsh.1, hsh.2.1⟩
    rw [writeList_cell _ _ hs hbounds r c, hsplit, lastVal_append]
    cases hSC : lastVal (selFrom (0 + 81) (covFresh g) f) r c with
    | some v =>
      simp only [Option.elim, id]
      rcases lastVal_some_mem hSC with ⟨t, ht, h1, h2, h3⟩
      rcases mem_covFresh.mp (selFrom_subset ht) with ⟨r2, c2, d, hr2, hc2, hd, hnedg, hte⟩
      subst hte
      have hre : r = r2 := h1.symm
      have hce : c = c2 := h2.symm
      subst hre; subst hce
      have hvd : v = d := h3.symm
      have hmemC : ((r, c, d) : Triple) ∈ covFresh g :=
        mem_covFresh.mpr ⟨r, c, d, hr, hc, hd, hnedg, rfl⟩
      have hfsel : f (idOf (satKeys g) (r, c, d)) = true := by
        have hidf := idOf_satKeys_fresh g hr hc hd hnedg
        have hsf := (mem_selFrom_iff hmemC (covFresh_nodup g)).mp ht
        rw [show 0 + 81 + posOf (covFresh g) (r, c, d) + 1
            = idOf (satKeys g) (r, c, d) by omega] at hsf
        exact hsf
      rw [hvd, huniq d hd hfsel]
    | none =>
      simp only [Option.elim]
      have hdg : dstar = gcell g r c := by
        by_contra hnedg
        have hmemC : ((r, c, dstar) : Triple) ∈ covFresh g :=
          mem_covFresh.mpr ⟨r, c, dstar, hr, hc, hdm, hnedg, rfl⟩
        have hidf := idOf_satKeys_fresh g hr hc hdm hnedg
        have hin : ((r, c, dstar) : Triple) ∈ selFrom (0 + 81) (covFresh g) f := by
          rw [mem_selFrom_iff hmemC (covFresh_nodup g)]
          rw [show 0 + 81 + posOf (covFresh g) (r, c, dstar) + 1
              = idOf (satKeys g) (r, c, dstar) by omega]
          exact hfd
        exact ((lastVal_none_iff _ r c).mp hSC _ hin) ⟨rfl, rfl⟩
      have hmemG : ((r, c, gcell g r c) : Triple) ∈ givTriples g :=
        mem_givTriples.mpr ⟨r, c, hr, hc, rfl⟩
      have hidg := idOf_satKeys_giv g hr hc
      have hinG : ((r, c, gcell g r c) : Triple) ∈ selFrom 0 (givTriples g) f := by
        rw [mem_selFrom_iff hmemG (givTriples_nodup g)]
        rw [posOf_givTriples g hr hc]
        rw [show 0 + (9 * r + c) + 1 = idOf (satKeys g) (r, c, gcell g r c) by omega]
        rw [← hdg]
        exact hfd
      cases hSG : lastVal (selFrom 0 (givTriples g) f) r c with
      | none =>
        exact absurd (⟨rfl, rfl⟩ : ((r, c, gcell g r c) : Triple).1 = r
            ∧ ((r, c, gcell g r c) : Triple).2.1 = c)
          (((lastVal_none_iff _ r c).mp hSG) _ hinG)
      | some w =>
        simp only [Option.elim, id]
        rcases lastVal_some_mem hSG with ⟨u, hu, hu1, hu2, hu3⟩
        rcases mem_givTriples.mp (selFrom_subset hu) with ⟨r3, c3, _, _, hue⟩
        have he1 : r3 = r := by rw [hue] at hu1; exact hu1
        have he2 : c3 = c := by rw [hue] at hu2; exact hu2
        have he3 : w = gcell g r3 c3 := by rw [hue] at hu3; exact hu3.symm
        rw [he1, he2] at he3
        rw [he3, hdg]
  refine ⟨?_, by rw [hval]; exact hdm, by rw [hval]; exact hfd⟩
  intro hnz
  have hgd : gcell g r c ∈ digits := by
    rcases he r hr c hc with ⟨h0, h9⟩
    exact mem_digits.mpr ⟨by omega, h9⟩
  have hgt : f (idOf (satKeys g) (r, c, gcell g r c)) = true := sem_giv hsat hr hc
  rw [hval, huniq (gcell g r c) hgd hgt]

/-! ### The decoded grid is a valid solution -/

lemma decoded_check {g : Grid} {f : Nat → Bool} (hs : shape9 g) (he : entries09 g)
    (hsat : satAssign f (clausesOf (satPlan g) (satKeys g))) :
    check_constraints (writeList (selFrom 0 (satKeys g) f) g) = true := by
  have hsol : shape9 (writeList (selFrom 0 (satKeys g) f) g) := shape9_writeList hs
  rw [check_constraints_iff_distinct _ hsol.1 hsol.2]
  have hcell : ∀ r, r < 9 → ∀ c, c < 9 →
      gcell (writeList (selFrom 0 (satKeys g) f) g) r c ∈ digits
      ∧ f (idOf (satKeys g)
          (r, c, gcell (writeList (selFrom 0 (satKeys g) f) g) r c)) = true :=
    fun r hr c hc => ⟨(decoded_cell hs he hsat hr hc).2.1,
      (decoded_cell hs he hsat hr hc).2.2⟩
  refine ⟨?_, ?_, ?_⟩
  · intro r hr a ha
    by_contra hcnt
    push_neg at hcnt
    obtain ⟨i, j, hij, hgi, hgj⟩ := @count_two_get?
      (rowCells (writeList (selFrom 0 (satKeys g) f) g) r) a (by omega)
    have hj9 : j < 9 := by
      by_contra hge
      rw [List.get?_eq_none.mpr (by simp [rowCells]; omega)] at hgj
      cases hgj
    have hi9 : i < 9 := by omega
    rw [rowCells_get? _ r i hi9] at hgi
    rw [rowCells_get? _ r j hj9] at hgj
    have hvi : gcell (writeList (selFrom 0 (satKeys g) f) g) r i = a := by injection hgi
    have hvj : gcell (writeList (selFrom 0 (satKeys g) f) g) r j = a := by injection hgj
    have h1 := hcell r hr i hi9
    have h2 := hcell r hr j hj9
    rw [hvi] at h1
    rw [hvj] at h2
    rcases sem_row hsat hr hij hj9 h1.1 with hf | hf
    · rw [h1.2] at hf; cases hf
    · rw [h2.2] at hf; cases hf
  · intro c hc a ha
    by_contra hcnt
    push_neg at hcnt
    obtain ⟨i, j, hij, hgi, hgj⟩ := @count_two_get?
      (colCells (writeList (selFrom 0 (satKeys g) f) g) c) a (by omega)
    have hj9 : j < 9 := by
      by_contra hge
      rw [List.get?_eq_none.mpr (by simp [colCells]; omega)] at hgj
      cases hgj
    have hi9 : i < 9 := by omega
    rw [colCells_get? _ c i hi9] at hgi
    rw [colCells_get? _ c j hj9] at hgj
    have hvi : gcell (writeList (selFrom 0 (satKeys g) f) g) i c = a := by injection hgi
    have hvj : gcell (writeList (selFrom 0 (satKeys g) f) g) j c = a := by injection hgj
    have h1 := hcell i hi9 c hc
    have h2 := hcell j hj9 c hc
    rw [hvi] at h1
    rw [hvj] at h2
    rcases sem_col hsat hc hij hj9 h1.1 with hf | hf
    · rw [h1.2] at hf; cases hf
    · rw [h2.2] at hf; cases hf
  · intro b hb a ha
    by_contra hcnt
    push_neg at hcnt
    obtain ⟨i, j, hij, hgi, hgj⟩ := @count_two_get?
      (boxCells (writeList (selFrom 0 (satKeys g) f) g) b) a (by omega)
    have hj9 : j < 9 := by
      by_contra hge
      rw [List.get?_eq_none.mpr (by rw [boxCells_length]; omega)] at hgj
      cases hgj
    have hi9 : i < 9 := by omega
    have hidxi : i = 3 * (i / 3) + i % 3 := by omega
    have hidxj : j = 3 * (j / 3) + j % 3 := by omega
    rw [hidxi, boxCells_get? _ b (by omega) (by omega)] at hgi
    rw [hidxj, boxCells_get? _ b (by omega) (by omega)] at hgj
    have hvi : gcell (writeList (selFrom 0 (satKeys g) f) g)
        (3 * (b / 3) + i / 3) (3 * (b % 3) + i % 3) = a := by injection hgi
    have hvj : gcell (writeList (selFrom 0 (satKeys g) f) g)
        (3 * (b / 3) + j / 3) (3 * (b % 3) + j % 3) = a := by injection hgj
    have h1 := hcell (3 * (b / 3) + i / 3) (by omega) (3 * (b % 3) + i % 3) (by omega)
    have h2 := hcell (3 * (b / 3) + j / 3) (by omega) (3 * (b % 3) + j % 3) (by omega)
    rw [hvi] at h1
    rw [hvj] at h2
    rcases @sem_box g f hsat (3 * (b / 3) + i / 3) (3 * (b % 3) + i % 3)
        (3 * (b / 3) + j / 3) (3 * (b % 3) + j % 3) a
        (by omega) (by omega) (by omega) (by omega)
        (by constructor <;> omega) (by omega) h1.1 with hf | hf
    · rw [h1.2] at hf; cases hf
    · rw [h2.2] at hf; cases hf

lemma sat_decoded_solves {g : Grid} {f : Nat → Bool} (hs : shape9 g) (he : entries09 g)
    (hsat : satAssign f (clausesOf (satPlan g) (satKeys g))) :
    solves g (writeList (selFrom 0 (satKeys g) f) g) := by
  have hsol : shape9 (writeList (selFrom 0 (satKeys g) f) g) := shape9_writeList hs
  refine ⟨⟨hsol.1, hsol.2, ?_⟩, decoded_check hs he hsat⟩
  intro r hr c hc
  have hdc := decoded_cell hs he hsat hr hc
  exact ⟨hdc.1, fun _ => mem_digits.mp hdc.2.1⟩

/-- C1: on a 9×9 puzzle with digit entries and a unique solution, the SAT
path (run on any satisfying total assignment, delivered as pysat's sorted
model) and the CSP path return the same fully populated grid — the unique
solution. -/
theorem sat_csp_identical (g : Grid) (hs : shape9 g) (he : entries09 g)
    (huniq : ∃! u, solves g u) (f : Nat → Bool)
    (hsat : satAssign f (satEncode (AtomReg.mk [] []) g).1) :
    ∃ u, solves g u
      ∧ (solveAsSat (SudokuState.mk g (AtomReg.mk [] []) none false)
          (some (sortedModel f (satKeys g).length))).1 = some u
      ∧ (solveAsCsp (SudokuState.mk g (AtomReg.mk [] []) none false)).1 = some u := by
  obtain ⟨u, hu, huu⟩ := huniq
  have hcl1 : (satEncode (regOf []) g).1 = clausesOf (satPlan g) (satKeys g) :=
    congrArg Prod.fst (satEncode_empty g)
  rw [← regOf_nil, hcl1] at hsat
  -- the SAT side decodes to the unique solution
  have hout : (solveAsSat (SudokuState.mk g (AtomReg.mk [] []) none false)
      (some (sortedModel f (satKeys g).length))).1
      = some (decodeModel (satEncode (AtomReg.mk [] []) g).2
          (sortedModel f (satKeys g).length) g) :=
    (congrArg Prod.fst (solveAsSat_some_eq _ _)).trans rfl
  have hreg : (satEncode (AtomReg.mk [] []) g).2 = regOf (satKeys g) := by
    rw [← regOf_nil]
    exact congrArg Prod.snd (satEncode_empty g)
  rw [hreg, decodeModel_eq_writeList] at hout
  have hde : writeList (selFrom 0 (satKeys g) f) g = u :=
    huu _ (sat_decoded_solves hs he hsat)
  -- the CSP side returns a solution, hence the unique one
  have hcspout : (solveAsCsp (SudokuState.mk g (AtomReg.mk [] []) none false)).1
      = cspSearchF g 82 g 0 0 none :=
    congrArg Prod.fst (solveAsCsp_eq _)
  have hspec := cspSearchF_spec g 82 0 0 g (by omega) (by omega)
    (fun _ => rfl) (by omega) hs (fun r _ c _ _ => rfl)
  cases hres : cspSearchF g 82 g 0 0 none with
  | none =>
    exfalso
    exact hspec.1 hres u (solves_iff_branch0.mp hu)
  | some gmin =>
    have hbm := (hspec.2 gmin hres).1
    have hgm : gmin = u := huu _ (solves_iff_branch0.mpr hbm)
    refine ⟨u, hu, ?_, ?_⟩
    · rw [hout, hde]
    · rw [hcspout, hres, hgm]

theorem sat_csp_identical_witness :
    (∃! u, solves fullGrid u) ∧
    ∃ u, solves fullGrid u
      ∧ (solveAsSat (SudokuState.mk fullGrid (AtomReg.mk [] []) none false)
          (some (sortedModel (modelAssign fullGrid fullGrid)
            (satKeys fullGrid).length))).1 = some u
      ∧ (solveAsCsp (SudokuState.mk fullGrid (AtomReg.mk [] []) none false)).1
          = some u := by
  have hfull : ∀ r, r < 9 → ∀ c, c < 9 → gcell fullGrid r c ≠ 0 := by decide
  have huniq : ∃! u, solves fullGrid u := by
    refine ⟨fullGrid, by unfold solves completes; decide, ?_⟩
    intro u hu
    have hsu : shape9 u := ⟨hu.1.1, hu.1.2.1⟩
    apply grid_eq_of_cells hsu (by unfold shape9; decide)
    intro r hr c hc
    exact (hu.1.2.2 r hr c hc).1 (hfull r hr c hc)
  exact ⟨huniq, sat_csp_identical fullGrid (by unfold shape9; decide)
    (by unfold entries09; decide) huniq (modelAssign fullGrid fullGrid)
    fullGrid_modelAssign_sat⟩
end SudokuPy
